import Mathlib

/-! go-pkg: `concurrent.SafeMap` and `asynccache.Error`

A shallow embedding of the two source files

* `concurrent/safe_map.go`  (`SafeMap.Put`, `SafeMap.Get`, `SafeMap.LoadOrStore`)
* `cache/asynccache/atomic_error.go`  (`Error.Load`, `Error.Store`)

Every method is a function from the receiver's state to an `Outcome`: either the
call returns a result together with the new state, or it stops with a `Fault`
(a Go panic, a fatal runtime error, or a lock that cannot be taken) together
with the state it leaves behind.

Map keys are compared with Go's `==`, which is not reflexive (a float NaN equals
nothing), and are hashed, which panics for an interface value that holds a value
of an unhashable type.
-/

set_option autoImplicit false

namespace GoRuntime

/-- Ways in which a call can stop without returning. -/
inductive Fault where
  /-- Go panic "assignment to entry in nil map". -/
  | assignNilMap
  /-- Go panic "runtime error: hash of unhashable type". -/
  | unhashableKey
  /-- Go panic "sync/atomic: store of nil value into Value". -/
  | storeNil
  /-- Go panic "sync/atomic: store of inconsistently typed value into Value". -/
  | storeInconsistent
  /-- Go panic "interface conversion" raised by a failed type assertion. -/
  | typeAssertion
  /-- Go fatal error "sync: Unlock of unlocked RWMutex". -/
  | unlockUnlocked
  /-- Go fatal error "sync: RUnlock of unlocked RWMutex". -/
  | runlockUnlocked
  /-- The caller waits for a lock that is held and is never released. -/
  | blocked
  deriving DecidableEq, Repr

/-- Result of a method call on a receiver of type `σ`: `ok (r, s)` when the call
returns `r` and leaves state `s`; `error (f, s)` when it stops with fault `f`,
leaving state `s` (deferred calls already run). -/
abbrev Outcome (σ α : Type) := Except (Fault × σ) (α × σ)

/-- State of the receiver once the call is over, whether it returned or not. -/
def Outcome.state {σ α : Type} : Outcome σ α → σ
  | .ok (_, s) => s
  | .error (_, s) => s

/-- What the caller sees of the call: the returned value, or the fault. -/
def Outcome.result {σ α : Type} : Outcome σ α → Except Fault α
  | .ok (r, _) => .ok r
  | .error (f, _) => .error f

/-- A Go key type, the `K comparable` of `SafeMap[K comparable, V any]`, as a map
sees it. `eq` is Go's `==`; it is symmetric and transitive but need not be
reflexive: a float NaN is `==` to nothing, itself included. `hashable` says
whether hashing the key succeeds; it fails, with a panic, for a key of interface
type that holds a value of an unhashable type such as a slice. -/
class GoKey (K : Type) where
  eq : K → K → Bool
  hashable : K → Bool
  eq_symm : ∀ a b : K, eq a b = true → eq b a = true
  eq_trans : ∀ a b c : K, eq a b = true → eq b c = true → eq a c = true

/-- Go integer keys (`int`, `uint`, ...): `==` is equality, every key hashes. -/
instance instGoKeyNat : GoKey Nat where
  eq a b := decide (a = b)
  hashable _ := true
  eq_symm := by
    intro a b h
    simp only [decide_eq_true_eq] at h ⊢
    exact h.symm
  eq_trans := by
    intro a b c h1 h2
    simp only [decide_eq_true_eq] at h1 h2 ⊢
    exact h1.trans h2

/-- Keys of Go type `float64`, as far as `==` goes: a number (here a whole one)
or NaN. -/
inductive Float64Key where
  | num (n : Nat)
  | nan
  deriving DecidableEq, Repr

/-- Go's `==` on `float64`: NaN is equal to nothing, NaN included. -/
def Float64Key.goEq : Float64Key → Float64Key → Bool
  | .num a, .num b => decide (a = b)
  | _, _ => false

/-- The key type `float64`: every key hashes, `==` is not reflexive at NaN. -/
instance instGoKeyFloat64Key : GoKey Float64Key where
  eq := Float64Key.goEq
  hashable _ := true
  eq_symm := by
    intro a b h
    cases a <;> cases b <;> simp_all [Float64Key.goEq]
  eq_trans := by
    intro a b c h1 h2
    cases a <;> cases b <;> cases c <;> simp_all [Float64Key.goEq]

/-- Keys of Go type `any` (the empty interface): an `int`, or a slice `[]int`,
whose type is not hashable. -/
inductive AnyKey where
  | int (n : Nat)
  | ints (elems : List Nat)
  deriving DecidableEq, Repr

/-- Go's `==` between the interface values that can be map keys. -/
def AnyKey.goEq : AnyKey → AnyKey → Bool
  | .int a, .int b => decide (a = b)
  | _, _ => false

/-- Hashing an interface value: fails when it holds a slice. -/
def AnyKey.canHash : AnyKey → Bool
  | .int _ => true
  | .ints _ => false

/-- The key type `any`. -/
instance instGoKeyAnyKey : GoKey AnyKey where
  eq := AnyKey.goEq
  hashable := AnyKey.canHash
  eq_symm := by
    intro a b h
    cases a <;> cases b <;> simp_all [AnyKey.goEq]
  eq_trans := by
    intro a b c h1 h2
    cases a <;> cases b <;> cases c <;> simp_all [AnyKey.goEq]

/-- A Go `map[K]V` value. `nil` is the zero value of the map type; `made es` is a
map created with `make` or a literal, holding the entries `es` (the first entry
whose key is `==` to the key looked up is the one found). -/
inductive GoMap (K V : Type) where
  | nil
  | made (entries : List (K × V))
  deriving DecidableEq, Repr

/-- Lookup in the entry list of a map: the first entry whose key is `==` to `key`. -/
def entryLookup {K V : Type} [GoKey K] (key : K) : List (K × V) → Option V
  | [] => none
  | (k, v) :: es => if GoKey.eq k key = true then some v else entryLookup key es

/-- Go's comma-ok index expression `res, ok := m[key]`. The key is hashed first,
also when the map is nil or empty, and that panics for an unhashable key. Reading
a nil map is allowed and finds nothing; a missing key yields the zero value of `V`. -/
def GoMap.index {K V : Type} [GoKey K] [Inhabited V] (m : GoMap K V) (key : K) :
    Except Fault (V × Bool) :=
  if GoKey.hashable key = true then
    match m with
    | .nil => .ok (default, false)
    | .made es =>
      match entryLookup key es with
      | some v => .ok (v, true)
      | none => .ok (default, false)
  else .error .unhashableKey

/-- Go's map assignment `m[key] = val`. Assigning into a nil map panics, whatever
the key; hashing an unhashable key panics; otherwise the entries whose key is `==`
to `key` are replaced by the one new entry (none is, when `key` is NaN). -/
def GoMap.assign {K V : Type} [GoKey K] (m : GoMap K V) (key : K) (val : V) :
    Except Fault (GoMap K V) :=
  match m with
  | .nil => .error .assignNilMap
  | .made es =>
    if GoKey.hashable key = true then
      .ok (.made ((key, val) :: es.filter (fun e => !GoKey.eq e.1 key)))
    else .error .unhashableKey

/-- State of a `sync.RWMutex`: whether a writer holds it and how many readers do. -/
structure RWMutex where
  writer : Bool
  readers : Nat
  deriving DecidableEq, Repr

/-- Zero value of `sync.RWMutex`: unlocked. -/
def RWMutex.zero : RWMutex := ⟨false, 0⟩

/-- Exclusive lock: `Lock` proceeds only when nobody holds the mutex. -/
def RWMutex.Lock (m : RWMutex) : Except Fault RWMutex :=
  if m.writer = false ∧ m.readers = 0 then .ok ⟨true, 0⟩ else .error .blocked

/-- Release of the exclusive lock. -/
def RWMutex.Unlock (m : RWMutex) : Except Fault RWMutex :=
  if m.writer = true then .ok ⟨false, m.readers⟩ else .error .unlockUnlocked

/-- Shared lock: `RLock` proceeds unless a writer holds the mutex. -/
def RWMutex.RLock (m : RWMutex) : Except Fault RWMutex :=
  if m.writer = true then .error .blocked else .ok ⟨false, m.readers + 1⟩

/-- Release of one shared lock. -/
def RWMutex.RUnlock (m : RWMutex) : Except Fault RWMutex :=
  if m.readers = 0 then .error .runlockUnlocked else .ok ⟨m.writer, m.readers - 1⟩

end GoRuntime

namespace concurrent

open GoRuntime

/-- The struct `SafeMap[K, V]` of `safe_map.go`: fields `data` and `mutex`. -/
structure SafeMap (K V : Type) where
  data : GoMap K V
  mutex : RWMutex
  deriving DecidableEq, Repr

/-- Zero value of `SafeMap[K, V]`, what `var m SafeMap[K, V]` or `new(SafeMap[K, V])`
gives: a nil `data` map and an unlocked mutex. The package exports no constructor
and both fields are unexported, so this is the value a client package starts from. -/
def SafeMap.zero {K V : Type} : SafeMap K V := ⟨.nil, RWMutex.zero⟩

/-- The underlying map has been created (it is not the nil map). -/
def SafeMap.Initialised {K V : Type} (s : SafeMap K V) : Prop :=
  ∃ es, s.data = GoMap.made es

/-- No call is in progress on the map: nobody holds its mutex. -/
def SafeMap.Idle {K V : Type} (s : SafeMap K V) : Prop :=
  s.mutex = RWMutex.zero

/-- The method `Put` (safe_map.go lines 12-16): `Lock`, deferred `Unlock`, `s.data[key] = val`. -/
def SafeMap.Put {K V : Type} [GoKey K] (s : SafeMap K V) (key : K) (val : V) :
    Outcome (SafeMap K V) Unit :=
  match s.mutex.Lock with
  | .error f => .error (f, s)
  | .ok held =>
    match s.data.assign key val with
    | .error f =>
      -- the panic unwinds through the deferred Unlock
      match held.Unlock with
      | .ok free => .error (f, ⟨s.data, free⟩)
      | .error _ => .error (f, ⟨s.data, held⟩)
    | .ok d =>
      match held.Unlock with
      | .ok free => .ok ((), ⟨d, free⟩)
      | .error f => .error (f, ⟨d, held⟩)

/-- The method `Get` (safe_map.go lines 19-24): `RLock`, deferred `RUnlock`,
`res, ok := s.data[key]`, `return res, ok`. The result is declared `any` in the
source; the embedding keeps the `V` value that the `any` boxes. -/
def SafeMap.Get {K V : Type} [GoKey K] [Inhabited V] (s : SafeMap K V) (key : K) :
    Outcome (SafeMap K V) (V × Bool) :=
  match s.mutex.RLock with
  | .error f => .error (f, s)
  | .ok held =>
    match s.data.index key with
    | .error f =>
      -- the panic unwinds through the deferred RUnlock
      match held.RUnlock with
      | .ok free => .error (f, ⟨s.data, free⟩)
      | .error _ => .error (f, ⟨s.data, held⟩)
    | .ok r =>
      match held.RUnlock with
      | .ok free => .ok (r, ⟨s.data, free⟩)
      | .error f => .error (f, ⟨s.data, held⟩)

/-- First half of `LoadOrStore` (safe_map.go lines 28-30): `RLock`,
`res, ok := s.data[key]`, `RUnlock`. Returns the pair `(res, ok)`. The `RUnlock`
here is a plain call, not a deferred one: when the index expression panics the
read lock stays held. -/
def SafeMap.loadOrStoreProbe {K V : Type} [GoKey K] [Inhabited V] (s : SafeMap K V)
    (key : K) : Outcome (SafeMap K V) (V × Bool) :=
  match s.mutex.RLock with
  | .error f => .error (f, s)
  | .ok held =>
    match s.data.index key with
    | .error f => .error (f, ⟨s.data, held⟩)
    | .ok r =>
      match held.RUnlock with
      | .ok free => .ok (r, ⟨s.data, free⟩)
      | .error f => .error (f, ⟨s.data, held⟩)

/-- Second half of `LoadOrStore` (safe_map.go lines 37-44): `Lock`, deferred `Unlock`,
`res, ok = s.data[key]`, return `(res, true)` on a hit, otherwise
`s.data[key] = newVal` and return `(newVal, false)`. -/
def SafeMap.loadOrStoreCommit {K V : Type} [GoKey K] [Inhabited V] (s : SafeMap K V)
    (key : K) (newVal : V) : Outcome (SafeMap K V) (V × Bool) :=
  match s.mutex.Lock with
  | .error f => .error (f, s)
  | .ok held =>
    match s.data.index key with
    | .error f =>
      match held.Unlock with
      | .ok free => .error (f, ⟨s.data, free⟩)
      | .error _ => .error (f, ⟨s.data, held⟩)
    | .ok r =>
      if r.2 = true then
        match held.Unlock with
        | .ok free => .ok ((r.1, true), ⟨s.data, free⟩)
        | .error f => .error (f, ⟨s.data, held⟩)
      else
        match s.data.assign key newVal with
        | .error f =>
          match held.Unlock with
          | .ok free => .error (f, ⟨s.data, free⟩)
          | .error _ => .error (f, ⟨s.data, held⟩)
        | .ok d =>
          match held.Unlock with
          | .ok free => .ok ((newVal, false), ⟨d, free⟩)
          | .error f => .error (f, ⟨d, held⟩)

/-- The method `LoadOrStore` (safe_map.go lines 27-45): the probe under the read
lock, `if ok { return res, true }`, then the re-check and insert under the write lock. -/
def SafeMap.LoadOrStore {K V : Type} [GoKey K] [Inhabited V] (s : SafeMap K V)
    (key : K) (newVal : V) : Outcome (SafeMap K V) (V × Bool) :=
  match s.loadOrStoreProbe key with
  | .error e => .error e
  | .ok (r, s1) =>
    if r.2 = true then .ok ((r.1, true), s1)
    else s1.loadOrStoreCommit key newVal

/-- One call on a `SafeMap`. -/
inductive Op (K V : Type) where
  | put (key : K) (val : V)
  | get (key : K)
  | loadOrStore (key : K) (newVal : V)
  deriving DecidableEq, Repr

/-- The call is a `Put` or a `LoadOrStore` on a key that is `==` to `key`. -/
def Op.writes {K V : Type} [GoKey K] (key : K) : Op K V → Bool
  | .put k _ => GoKey.eq k key
  | .get _ => false
  | .loadOrStore k _ => GoKey.eq k key

/-- State of the map once the call `op` is over (returned or stopped). -/
def SafeMap.apply {K V : Type} [GoKey K] [Inhabited V] (s : SafeMap K V) :
    Op K V → SafeMap K V
  | .put k v => (s.Put k v).state
  | .get k => (s.Get k).state
  | .loadOrStore k v => (s.LoadOrStore k v).state

/-- State of the map after the calls `ops`, made one after another. -/
def SafeMap.run {K V : Type} [GoKey K] [Inhabited V] (s : SafeMap K V) :
    List (Op K V) → SafeMap K V
  | [] => s
  | op :: ops => (s.apply op).run ops

/-- The calls `LoadOrStore(key, v1)`, ..., `LoadOrStore(key, vN)` made one after
another; returns the list of their `(val, loaded)` results, in order. -/
def SafeMap.loadOrStoreAll {K V : Type} [GoKey K] [Inhabited V] (s : SafeMap K V)
    (key : K) : List V → Outcome (SafeMap K V) (List (V × Bool))
  | [] => .ok ([], s)
  | c :: cs =>
    match s.LoadOrStore key c with
    | .error e => .error e
    | .ok (r, s1) =>
      match s1.loadOrStoreAll key cs with
      | .error e => .error e
      | .ok (rs, s2) => .ok (r :: rs, s2)

/-- The single-check variant of `LoadOrStore`, written from its description and not
from the source: only the exclusive-access section runs. `Lock`, look `key` up,
return `(res, true)` on a hit, otherwise insert `newVal` and return
`(newVal, false)`; `Unlock` on the way out. There is no shared-access lookup. -/
def SafeMap.LoadOrStoreSingleCheck {K V : Type} [GoKey K] [Inhabited V]
    (s : SafeMap K V) (key : K) (newVal : V) : Outcome (SafeMap K V) (V × Bool) :=
  match s.mutex.Lock with
  | .error f => .error (f, s)
  | .ok held =>
    match s.data.index key with
    | .ok (res, true) =>
      match held.Unlock with
      | .ok free => .ok ((res, true), ⟨s.data, free⟩)
      | .error f => .error (f, ⟨s.data, held⟩)
    | .ok (_, false) =>
      match s.data.assign key newVal with
      | .ok d =>
        match held.Unlock with
        | .ok free => .ok ((newVal, false), ⟨d, free⟩)
        | .error f => .error (f, ⟨d, held⟩)
      | .error f =>
        match held.Unlock with
        | .ok free => .error (f, ⟨s.data, free⟩)
        | .error _ => .error (f, ⟨s.data, held⟩)
    | .error f =>
      match held.Unlock with
      | .ok free => .error (f, ⟨s.data, free⟩)
      | .error _ => .error (f, ⟨s.data, held⟩)

end concurrent

namespace concurrent

open GoRuntime

/-! ### Interleaved `LoadOrStore` calls

Each of the two critical sections of `LoadOrStore` is one atomic step: the probe
(lines 28-33, under the read lock) and the commit (lines 37-44, under the write
lock). Several callers take their steps in any order on the shared map. -/

/-- Where a `LoadOrStore` call stands: before its probe, before its commit, or
returned with `(val, loaded)`. -/
inductive Pc (V : Type) where
  | probe
  | commit
  | returned (val : V) (loaded : Bool)
  deriving DecidableEq, Repr

/-- One in-flight call `LoadOrStore(key, newVal)`. -/
structure Caller (V : Type) where
  newVal : V
  pc : Pc V
  deriving DecidableEq, Repr

/-- The call has returned. -/
def Caller.finished {V : Type} (c : Caller V) : Bool :=
  match c.pc with
  | .returned _ _ => true
  | _ => false

/-- The call has returned with `loaded = false`. -/
def Caller.installed {V : Type} (c : Caller V) : Bool :=
  match c.pc with
  | .returned _ false => true
  | _ => false

/-- The next atomic step of one caller on the shared map; `none` when the caller
has already returned or the step cannot run. -/
def Caller.step {K V : Type} [GoKey K] [Inhabited V] (key : K) (c : Caller V)
    (s : SafeMap K V) : Option (Caller V × SafeMap K V) :=
  match c.pc with
  | .probe =>
    match s.loadOrStoreProbe key with
    | .ok (r, s1) =>
      if r.2 = true then some (⟨c.newVal, .returned r.1 true⟩, s1)
      else some (⟨c.newVal, .commit⟩, s1)
    | .error _ => none
  | .commit =>
    match s.loadOrStoreCommit key c.newVal with
    | .ok (r, s1) => some (⟨c.newVal, .returned r.1 r.2⟩, s1)
    | .error _ => none
  | .returned _ _ => none

/-- Caller number `i` takes its next step. -/
def stepAt {K V : Type} [GoKey K] [Inhabited V] (key : K) :
    Nat → List (Caller V) → SafeMap K V → Option (List (Caller V) × SafeMap K V)
  | _, [], _ => none
  | 0, c :: cs, s => (c.step key s).map (fun p => (p.1 :: cs, p.2))
  | i + 1, c :: cs, s => (stepAt key i cs s).map (fun p => (c :: p.1, p.2))

/-- Run the schedule `sched`, a list of caller numbers; `none` when a scheduled
caller cannot step. -/
def exec {K V : Type} [GoKey K] [Inhabited V] (key : K) :
    List Nat → List (Caller V) → SafeMap K V → Option (List (Caller V) × SafeMap K V)
  | [], cs, s => some (cs, s)
  | i :: sched, cs, s =>
    match stepAt key i cs s with
    | none => none
    | some (cs1, s1) => exec key sched cs1 s1

/-- The callers `LoadOrStore(key, v1)`, ..., `LoadOrStore(key, vN)` before any step. -/
def startCallers {V : Type} (cands : List V) : List (Caller V) :=
  cands.map (fun v => ⟨v, .probe⟩)

/-- Invariant of the interleaved calls on key `k`, for callers `cs` and map entries
`es`: while `k` is absent nobody has returned; once `k` holds `v`, `v` is one of the
candidates, exactly one caller has returned `loaded = false`, and every caller that
has returned has returned `v`. -/
def InstallOnce {K V : Type} [GoKey K] (k : K) (cs : List (Caller V))
    (es : List (K × V)) : Prop :=
  match entryLookup k es with
  | none => ∀ c ∈ cs, c.finished = false
  | some v => v ∈ cs.map Caller.newVal ∧ cs.countP Caller.installed = 1 ∧
      ∀ c ∈ cs, ∀ val loaded, c.pc = Pc.returned val loaded → val = v

/-- Number of atomic steps a caller can still take, at most. -/
def Caller.stepsLeft {V : Type} (c : Caller V) : Nat :=
  match c.pc with
  | .probe => 2
  | .commit => 1
  | .returned _ _ => 0

/-- Number of atomic steps all callers together can still take, at most. -/
def stepsLeft {V : Type} (cs : List (Caller V)) : Nat :=
  (cs.map Caller.stepsLeft).sum

end concurrent

namespace asynccache

open GoRuntime

/-- A Go `error` interface value over concrete errors `E`: `none` is the nil error. -/
abbrev GoError (E : Type) := Option E

/-- An interface value as `atomic.Value` sees it: the nil interface, an
`errorHolder{err}` struct (atomic_error.go line 31), or a value of another
concrete type, named by a type number. -/
inductive Iface (E : Type) where
  | nil
  | errorHolder (err : GoError E)
  | other (typ : Nat)
  deriving DecidableEq, Repr

/-- Two non-nil interface values have the same concrete type. -/
def Iface.sameType {E : Type} : Iface E → Iface E → Bool
  | .errorHolder _, .errorHolder _ => true
  | .other a, .other b => decide (a = b)
  | _, _ => false

/-- The cell `sync/atomic.Value`: nil until the first `Store`. -/
structure AtomicValue (E : Type) where
  val : Iface E
  deriving DecidableEq, Repr

/-- `atomic.Value.Load`: the value set by the most recent `Store`, nil if there was none. -/
def AtomicValue.Load {E : Type} (a : AtomicValue E) : Iface E := a.val

/-- `atomic.Value.Store`: panics on a nil value and on a value whose concrete type
differs from the type first stored; otherwise sets the cell. -/
def AtomicValue.Store {E : Type} (a : AtomicValue E) (x : Iface E) :
    Except Fault (AtomicValue E) :=
  match x with
  | .nil => .error .storeNil
  | _ =>
    match a.val with
    | .nil => .ok ⟨x⟩
    | old => if old.sameType x = true then .ok ⟨x⟩ else .error .storeInconsistent

/-- The struct `Error` of atomic_error.go line 26: a single field `v atomic.Value`. -/
structure Error (E : Type) where
  v : AtomicValue E
  deriving DecidableEq, Repr

/-- Zero value of `Error`: the cell has never been stored to. -/
def Error.zero {E : Type} : Error E := ⟨⟨.nil⟩⟩

/-- The method `Load` (atomic_error.go lines 34-42): `v := e.v.Load()`, nil gives
nil, otherwise the type assertion `v.(errorHolder)` and its `err` field. -/
def Error.Load {E : Type} (e : Error E) : Outcome (Error E) (GoError E) :=
  match e.v.Load with
  | .nil => .ok (none, e)
  | .errorHolder err => .ok (err, e)
  | .other _ => .error (.typeAssertion, e)

/-- The method `Store` (atomic_error.go lines 46-48): `e.v.Store(errorHolder{err: err})`. -/
def Error.Store {E : Type} (e : Error E) (err : GoError E) : Outcome (Error E) Unit :=
  match e.v.Store (.errorHolder err) with
  | .ok a => .ok ((), ⟨a⟩)
  | .error f => .error (f, e)

/-- The cell is empty or holds an `errorHolder`: the holder is fresh or holds a
previously stored value. -/
def Error.Holding {E : Type} (e : Error E) : Prop :=
  e.v.val = Iface.nil ∨ ∃ prev, e.v.val = Iface.errorHolder prev

/-- One call on an `Error` holder. -/
inductive Call (E : Type) where
  | store (err : GoError E)
  | load
  deriving DecidableEq, Repr

/-- State of the holder once the call is over. -/
def Error.apply {E : Type} (e : Error E) : Call E → Error E
  | .store err => (e.Store err).state
  | .load => e.Load.state

/-- State of the holder after the calls `cs`, made one after another. -/
def Error.run {E : Type} (e : Error E) : List (Call E) → Error E
  | [] => e
  | c :: cs => (e.apply c).run cs

end asynccache

/-! ## Theorems -/

namespace GoRuntime

/-! ### Map entries -/

theorem GoKey.eq_false_symm {K : Type} [GoKey K] (a b : K) (h : GoKey.eq a b = false) :
    GoKey.eq b a = false := by
  cases hba : GoKey.eq b a with
  | false => rfl
  | true => rw [GoKey.eq_symm b a hba] at h; cases h

theorem entryLookup_filter_self {K V : Type} [GoKey K] (key : K) (es : List (K × V)) :
    entryLookup key (es.filter (fun e => !GoKey.eq e.1 key)) = none := by
  induction es with
  | nil => rfl
  | cons e es ih =>
    obtain ⟨k, v⟩ := e
    cases h : GoKey.eq k key with
    | true => simp [List.filter_cons, h, ih]
    | false => simp [List.filter_cons, h, entryLookup, ih]

theorem entryLookup_filter_other {K V : Type} [GoKey K] (key other : K)
    (h : GoKey.eq other key = false) (es : List (K × V)) :
    entryLookup other (es.filter (fun e => !GoKey.eq e.1 key)) = entryLookup other es := by
  induction es with
  | nil => rfl
  | cons e es ih =>
    obtain ⟨k, v⟩ := e
    cases hk : GoKey.eq k key with
    | true =>
      have hne : GoKey.eq k other = false := by
        cases hko : GoKey.eq k other with
        | false => rfl
        | true =>
          have := GoKey.eq_trans other k key (GoKey.eq_symm k other hko) hk
          rw [this] at h; cases h
      simp [List.filter_cons, hk, entryLookup, ih, hne]
    | false =>
      cases ho : GoKey.eq k other with
      | true => simp [List.filter_cons, hk, entryLookup, ho]
      | false => simp [List.filter_cons, hk, entryLookup, ho, ih]

theorem GoMap.index_unhashable {K V : Type} [GoKey K] [Inhabited V] (d : GoMap K V) (k : K)
    (h : GoKey.hashable k = false) : d.index k = .error Fault.unhashableKey := by
  simp [GoMap.index, h]

theorem GoMap.index_nil {K V : Type} [GoKey K] [Inhabited V] (k : K)
    (h : GoKey.hashable k = true) : (GoMap.nil : GoMap K V).index k = .ok (default, false) := by
  simp [GoMap.index, h]

theorem GoMap.index_made_hit {K V : Type} [GoKey K] [Inhabited V] (es : List (K × V)) (k : K)
    (v : V) (h : GoKey.hashable k = true) (hl : entryLookup k es = some v) :
    (GoMap.made es).index k = .ok (v, true) := by
  simp [GoMap.index, h, hl]

theorem GoMap.index_made_miss {K V : Type} [GoKey K] [Inhabited V] (es : List (K × V)) (k : K)
    (h : GoKey.hashable k = true) (hl : entryLookup k es = none) :
    (GoMap.made es).index k = .ok (default, false) := by
  simp [GoMap.index, h, hl]

theorem GoMap.hashable_of_index_ok {K V : Type} [GoKey K] [Inhabited V] (d : GoMap K V) (k : K)
    (r : V × Bool) (h : d.index k = .ok r) : GoKey.hashable k = true := by
  cases hk : GoKey.hashable k with
  | true => rfl
  | false => rw [GoMap.index_unhashable d k hk] at h; cases h

theorem GoMap.lookup_of_index_hit {K V : Type} [GoKey K] [Inhabited V] (d : GoMap K V) (k : K)
    (v : V) (h : d.index k = .ok (v, true)) :
    ∃ es, d = GoMap.made es ∧ entryLookup k es = some v := by
  have hk := GoMap.hashable_of_index_ok d k _ h
  cases d with
  | nil => simp [GoMap.index, hk] at h
  | made es =>
    refine ⟨es, rfl, ?_⟩
    cases hl : entryLookup k es with
    | none => simp [GoMap.index, hk, hl] at h
    | some w =>
      simp [GoMap.index, hk, hl] at h
      rw [h]

theorem GoMap.lookup_of_index_miss {K V : Type} [GoKey K] [Inhabited V] (es : List (K × V))
    (k : K) (z : V) (h : (GoMap.made es).index k = .ok (z, false)) :
    entryLookup k es = none ∧ z = default := by
  have hk := GoMap.hashable_of_index_ok _ k _ h
  cases hl : entryLookup k es with
  | none =>
    simp [GoMap.index, hk, hl] at h
    exact ⟨rfl, h.symm⟩
  | some w => simp [GoMap.index, hk, hl] at h

theorem GoMap.index_result_miss {K V : Type} [GoKey K] [Inhabited V] (d : GoMap K V) (k : K)
    (r : V × Bool) (h : d.index k = .ok r) (hr : r.2 = false) : r = (default, false) := by
  have hk := GoMap.hashable_of_index_ok d k _ h
  cases d with
  | nil =>
    simp [GoMap.index, hk] at h
    exact h.symm
  | made es =>
    cases hl : entryLookup k es with
    | none =>
      simp [GoMap.index, hk, hl] at h
      exact h.symm
    | some w =>
      simp [GoMap.index, hk, hl] at h
      rw [← h] at hr
      cases hr

theorem GoMap.assign_made {K V : Type} [GoKey K] (es : List (K × V)) (k : K) (v : V)
    (h : GoKey.hashable k = true) :
    (GoMap.made es).assign k v
      = .ok (GoMap.made ((k, v) :: es.filter (fun e => !GoKey.eq e.1 k))) := by
  simp [GoMap.assign, h]

theorem GoMap.index_assign_self {K V : Type} [GoKey K] [Inhabited V]
    (es : List (K × V)) (k : K) (v : V) (h : GoKey.hashable k = true)
    (hself : GoKey.eq k k = true) :
    (GoMap.made ((k, v) :: es.filter (fun e => !GoKey.eq e.1 k))).index k = .ok (v, true) := by
  simp [GoMap.index, entryLookup, h, hself]

theorem GoMap.index_assign_other {K V : Type} [GoKey K] [Inhabited V]
    (es : List (K × V)) (k other : K) (v : V) (h : GoKey.eq other k = false) :
    (GoMap.made ((k, v) :: es.filter (fun e => !GoKey.eq e.1 k))).index other =
      (GoMap.made es).index other := by
  have hne : GoKey.eq k other = false := GoKey.eq_false_symm other k h
  simp [GoMap.index, entryLookup, hne, entryLookup_filter_other k other h]

theorem Outcome.result_ok {σ α : Type} (r : α) (s : σ) :
    Outcome.result (Except.ok (r, s) : Outcome σ α) = .ok r := rfl

theorem Outcome.state_ok {σ α : Type} (r : α) (s : σ) :
    Outcome.state (Except.ok (r, s) : Outcome σ α) = s := rfl

end GoRuntime

namespace concurrent

open GoRuntime

/-! ### The methods on a map whose write lock is free -/

theorem SafeMap.Put_idle {K V : Type} [GoKey K] (d : GoMap K V) (k : K) (v : V) :
    (SafeMap.mk d RWMutex.zero).Put k v =
      match d.assign k v with
      | .ok d1 => .ok ((), ⟨d1, RWMutex.zero⟩)
      | .error f => .error (f, ⟨d, RWMutex.zero⟩) := by
  simp only [SafeMap.Put, RWMutex.Lock, RWMutex.zero]
  cases d.assign k v <;> simp [RWMutex.Unlock]

theorem SafeMap.Put_busy {K V : Type} [GoKey K] (d : GoMap K V) (w : Bool) (r : Nat)
    (h : w = true ∨ r ≠ 0) (k : K) (v : V) :
    (SafeMap.mk d ⟨w, r⟩).Put k v = .error (Fault.blocked, ⟨d, ⟨w, r⟩⟩) := by
  rcases h with h | h <;> simp [SafeMap.Put, RWMutex.Lock, h]

theorem SafeMap.Get_free {K V : Type} [GoKey K] [Inhabited V] (d : GoMap K V) (r : Nat)
    (k : K) :
    (SafeMap.mk d ⟨false, r⟩).Get k =
      match d.index k with
      | .ok x => .ok (x, ⟨d, ⟨false, r⟩⟩)
      | .error f => .error (f, ⟨d, ⟨false, r⟩⟩) := by
  simp only [SafeMap.Get, RWMutex.RLock]
  cases d.index k <;> simp [RWMutex.RUnlock]

theorem SafeMap.Get_idle {K V : Type} [GoKey K] [Inhabited V] (d : GoMap K V) (k : K) :
    (SafeMap.mk d RWMutex.zero).Get k =
      match d.index k with
      | .ok x => .ok (x, ⟨d, RWMutex.zero⟩)
      | .error f => .error (f, ⟨d, RWMutex.zero⟩) :=
  SafeMap.Get_free d 0 k

theorem SafeMap.Get_state {K V : Type} [GoKey K] [Inhabited V] (s : SafeMap K V)
    (k : K) : (s.Get k).state = s := by
  obtain ⟨d, ⟨w, r⟩⟩ := s
  cases w
  · rw [SafeMap.Get_free]
    cases d.index k <;> rfl
  · simp [SafeMap.Get, RWMutex.RLock, Outcome.state]

theorem SafeMap.loadOrStoreProbe_free {K V : Type} [GoKey K] [Inhabited V]
    (d : GoMap K V) (r : Nat) (k : K) :
    (SafeMap.mk d ⟨false, r⟩).loadOrStoreProbe k =
      match d.index k with
      | .ok x => .ok (x, ⟨d, ⟨false, r⟩⟩)
      | .error f => .error (f, ⟨d, ⟨false, r + 1⟩⟩) := by
  simp only [SafeMap.loadOrStoreProbe, RWMutex.RLock]
  cases d.index k <;> simp [RWMutex.RUnlock]

theorem SafeMap.loadOrStoreCommit_idle {K V : Type} [GoKey K] [Inhabited V]
    (d : GoMap K V) (k : K) (c : V) :
    (SafeMap.mk d RWMutex.zero).loadOrStoreCommit k c =
      match d.index k with
      | .error f => .error (f, ⟨d, RWMutex.zero⟩)
      | .ok x =>
        if x.2 = true then .ok ((x.1, true), ⟨d, RWMutex.zero⟩)
        else
          match d.assign k c with
          | .ok d1 => .ok ((c, false), ⟨d1, RWMutex.zero⟩)
          | .error f => .error (f, ⟨d, RWMutex.zero⟩) := by
  simp only [SafeMap.loadOrStoreCommit, RWMutex.Lock, RWMutex.zero]
  cases d.index k with
  | error f => simp [RWMutex.Unlock]
  | ok x =>
    by_cases hx : x.2 = true
    · simp [RWMutex.Unlock, hx]
    · cases d.assign k c <;> simp [RWMutex.Unlock, hx]

theorem SafeMap.loadOrStoreCommit_busy {K V : Type} [GoKey K] [Inhabited V] (d : GoMap K V)
    (w : Bool) (r : Nat) (h : w = true ∨ r ≠ 0) (k : K) (c : V) :
    (SafeMap.mk d ⟨w, r⟩).loadOrStoreCommit k c = .error (Fault.blocked, ⟨d, ⟨w, r⟩⟩) := by
  rcases h with h | h <;> simp [SafeMap.loadOrStoreCommit, RWMutex.Lock, h]

theorem SafeMap.LoadOrStore_idle {K V : Type} [GoKey K] [Inhabited V]
    (d : GoMap K V) (k : K) (c : V) :
    (SafeMap.mk d RWMutex.zero).LoadOrStore k c =
      match d.index k with
      | .error f => .error (f, ⟨d, ⟨false, 1⟩⟩)
      | .ok x =>
        if x.2 = true then .ok ((x.1, true), ⟨d, RWMutex.zero⟩)
        else
          match d.assign k c with
          | .ok d1 => .ok ((c, false), ⟨d1, RWMutex.zero⟩)
          | .error f => .error (f, ⟨d, RWMutex.zero⟩) := by
  have hp := SafeMap.loadOrStoreProbe_free d 0 k
  have hc := SafeMap.loadOrStoreCommit_idle d k c
  simp only [SafeMap.LoadOrStore]
  rw [show RWMutex.zero = (⟨false, 0⟩ : RWMutex) from rfl] at hc ⊢
  rw [hp]
  cases hi : d.index k with
  | error f => rfl
  | ok x =>
    rw [hi] at hc
    by_cases hx : x.2 = true
    · simp [hx]
    · simp only [hx, if_false] at hc ⊢
      simp only [Bool.false_eq_true, if_false]
      exact hc

end concurrent

namespace concurrent

open GoRuntime

theorem SafeMap.Get_idle_ok {K V : Type} [GoKey K] [Inhabited V] (d : GoMap K V) (k : K)
    (x : V × Bool) (h : d.index k = .ok x) :
    (SafeMap.mk d RWMutex.zero).Get k = .ok (x, ⟨d, RWMutex.zero⟩) := by
  rw [SafeMap.Get_idle, h]

theorem SafeMap.index_of_Get_idle {K V : Type} [GoKey K] [Inhabited V] (d : GoMap K V) (k : K)
    (x : V × Bool) (s1 : SafeMap K V)
    (h : (SafeMap.mk d RWMutex.zero).Get k = .ok (x, s1)) : d.index k = .ok x := by
  rw [SafeMap.Get_idle] at h
  cases hi : d.index k with
  | error f => rw [hi] at h; cases h
  | ok y =>
    rw [hi] at h
    injection h with h
    rw [(Prod.mk.inj h).1]

theorem SafeMap.Put_made {K V : Type} [GoKey K] (es : List (K × V)) (k : K) (v : V)
    (hk : GoKey.hashable k = true) :
    (SafeMap.mk (GoMap.made es) RWMutex.zero).Put k v =
      .ok ((), ⟨GoMap.made ((k, v) :: es.filter (fun e => !GoKey.eq e.1 k)), RWMutex.zero⟩) := by
  rw [SafeMap.Put_idle, GoMap.assign_made es k v hk]

theorem SafeMap.LoadOrStore_hit {K V : Type} [GoKey K] [Inhabited V] (d : GoMap K V) (k : K)
    (v c : V) (h : d.index k = .ok (v, true)) :
    (SafeMap.mk d RWMutex.zero).LoadOrStore k c = .ok ((v, true), ⟨d, RWMutex.zero⟩) := by
  rw [SafeMap.LoadOrStore_idle, h]
  rfl

theorem SafeMap.LoadOrStore_miss {K V : Type} [GoKey K] [Inhabited V] (es : List (K × V))
    (k : K) (z c : V) (h : (GoMap.made es).index k = .ok (z, false)) :
    (SafeMap.mk (GoMap.made es) RWMutex.zero).LoadOrStore k c =
      .ok ((c, false),
        ⟨GoMap.made ((k, c) :: es.filter (fun e => !GoKey.eq e.1 k)), RWMutex.zero⟩) := by
  have hk := GoMap.hashable_of_index_ok _ k _ h
  rw [SafeMap.LoadOrStore_idle, h, GoMap.assign_made es k c hk]
  rfl

theorem SafeMap.LoadOrStore_made_cases {K V : Type} [GoKey K] [Inhabited V]
    (es : List (K × V)) (k : K) (c : V) (hk : GoKey.hashable k = true) :
    (∃ v, (GoMap.made es).index k = .ok (v, true) ∧
        (SafeMap.mk (GoMap.made es) RWMutex.zero).LoadOrStore k c =
          .ok ((v, true), ⟨GoMap.made es, RWMutex.zero⟩)) ∨
    ((GoMap.made es).index k = .ok (default, false) ∧
        (SafeMap.mk (GoMap.made es) RWMutex.zero).LoadOrStore k c =
          .ok ((c, false),
            ⟨GoMap.made ((k, c) :: es.filter (fun e => !GoKey.eq e.1 k)), RWMutex.zero⟩)) := by
  cases hl : entryLookup k es with
  | some v =>
    left
    have hi := GoMap.index_made_hit es k v hk hl
    exact ⟨v, hi, SafeMap.LoadOrStore_hit _ k v c hi⟩
  | none =>
    right
    have hi := GoMap.index_made_miss (V := V) es k hk hl
    exact ⟨hi, SafeMap.LoadOrStore_miss es k default c hi⟩

theorem SafeMap.LoadOrStore_unhashable {K V : Type} [GoKey K] [Inhabited V] (d : GoMap K V)
    (k : K) (c : V) (hk : GoKey.hashable k = false) :
    (SafeMap.mk d RWMutex.zero).LoadOrStore k c
      = .error (Fault.unhashableKey, ⟨d, ⟨false, 1⟩⟩) := by
  rw [SafeMap.LoadOrStore_idle, GoMap.index_unhashable d k hk]

/-- C1 (as amended). Put/Get round trip: on a map whose `data` is initialised and on
which no call is in progress, for every key `k` that hashes and is `==` to itself
and every value `v`, `Put(k, v)` returns, and `Get(k)` on the resulting map
returns `(v, true)`. -/
theorem SafeMap.put_get_round_trip {K V : Type} [GoKey K] [Inhabited V]
    (s : SafeMap K V) (hinit : s.Initialised) (hidle : s.Idle) (k : K)
    (hhash : GoKey.hashable k = true) (hself : GoKey.eq k k = true) (v : V) :
    ∃ s1, s.Put k v = .ok ((), s1) ∧ s1.Get k = .ok ((v, true), s1) := by
  obtain ⟨d, m⟩ := s
  obtain ⟨es, hes⟩ := hinit
  simp only [SafeMap.Idle] at hidle
  simp only at hes
  subst hidle hes
  exact ⟨_, SafeMap.Put_made es k v hhash,
    SafeMap.Get_idle_ok _ k _ (GoMap.index_assign_self es k v hhash hself)⟩

theorem SafeMap.put_get_round_trip_witness :
    (SafeMap.mk (GoMap.made [(1, 5), (2, 6)]) RWMutex.zero : SafeMap Nat Nat).Initialised ∧
    (SafeMap.mk (GoMap.made [(1, 5), (2, 6)]) RWMutex.zero : SafeMap Nat Nat).Idle ∧
    ∃ s1, (SafeMap.mk (GoMap.made [(1, 5), (2, 6)]) RWMutex.zero : SafeMap Nat Nat).Put 1 7
        = .ok ((), s1) ∧ s1.Get 1 = .ok ((7, true), s1) :=
  ⟨⟨_, rfl⟩, rfl,
    SafeMap.put_get_round_trip ⟨GoMap.made [(1, 5), (2, 6)], RWMutex.zero⟩ ⟨_, rfl⟩ rfl 1
      rfl rfl 7⟩

/-- C1 (the claim as stated fails). On a `SafeMap[float64, int]` with an empty created
map, `Put(NaN, 1)` returns, and `Get(NaN)` on the resulting map returns `(0, false)`,
not `(1, true)`: the stored NaN key is `==` to no key. -/
theorem SafeMap.put_get_nan_key :
    (SafeMap.mk (GoMap.made []) RWMutex.zero : SafeMap Float64Key Nat).Put Float64Key.nan 1
      = .ok ((), ⟨GoMap.made [(Float64Key.nan, 1)], RWMutex.zero⟩) ∧
    (SafeMap.mk (GoMap.made [(Float64Key.nan, 1)]) RWMutex.zero :
        SafeMap Float64Key Nat).Get Float64Key.nan
      = .ok ((0, false), ⟨GoMap.made [(Float64Key.nan, 1)], RWMutex.zero⟩) ∧
    ¬ ∃ s1, (SafeMap.mk (GoMap.made []) RWMutex.zero : SafeMap Float64Key Nat).Put
          Float64Key.nan 1 = .ok ((), s1) ∧
        s1.Get Float64Key.nan = .ok ((1, true), s1) := by
  have h1 : (SafeMap.mk (GoMap.made []) RWMutex.zero : SafeMap Float64Key Nat).Put
      Float64Key.nan 1 = .ok ((), ⟨GoMap.made [(Float64Key.nan, 1)], RWMutex.zero⟩) := rfl
  have h2 : (SafeMap.mk (GoMap.made [(Float64Key.nan, 1)]) RWMutex.zero :
      SafeMap Float64Key Nat).Get Float64Key.nan
      = .ok ((0, false), ⟨GoMap.made [(Float64Key.nan, 1)], RWMutex.zero⟩) := rfl
  refine ⟨h1, h2, ?_⟩
  rintro ⟨s1, hp, hg⟩
  rw [h1] at hp
  injection hp with hp
  have hs : s1 = ⟨GoMap.made [(Float64Key.nan, 1)], RWMutex.zero⟩ := (Prod.mk.inj hp).2.symm
  rw [hs, h2] at hg
  injection hg with hg
  have := (Prod.mk.inj (Prod.mk.inj hg).1).2
  cases this

/-- C2. LoadOrStore is non-destructive on a hit: when `Get(k)` returns `(v, true)` on
an idle map `s`, `LoadOrStore(k, c)` returns `(v, true)` for every candidate `c`
and leaves the map exactly as it was, so `Get(k)` still returns `(v, true)`. -/
theorem SafeMap.loadOrStore_hit_unchanged {K V : Type} [GoKey K] [Inhabited V]
    (s : SafeMap K V) (hidle : s.Idle) (k : K) (v c : V)
    (hget : s.Get k = .ok ((v, true), s)) :
    s.LoadOrStore k c = .ok ((v, true), s) ∧
      (s.LoadOrStore k c).state.Get k = .ok ((v, true), s) := by
  obtain ⟨d, m⟩ := s
  simp only [SafeMap.Idle] at hidle
  subst hidle
  have hidx := SafeMap.index_of_Get_idle d k _ _ hget
  have hlos := SafeMap.LoadOrStore_hit d k v c hidx
  refine ⟨hlos, ?_⟩
  rw [hlos, Outcome.state_ok]
  exact hget

theorem SafeMap.loadOrStore_hit_unchanged_witness :
    (SafeMap.mk (GoMap.made [(1, 5), (2, 6)]) RWMutex.zero : SafeMap Nat Nat).LoadOrStore 2 9
        = .ok ((6, true), ⟨GoMap.made [(1, 5), (2, 6)], RWMutex.zero⟩) ∧
      ((SafeMap.mk (GoMap.made [(1, 5), (2, 6)]) RWMutex.zero : SafeMap Nat Nat).LoadOrStore
          2 9).state.Get 2
        = .ok ((6, true), ⟨GoMap.made [(1, 5), (2, 6)], RWMutex.zero⟩) :=
  SafeMap.loadOrStore_hit_unchanged ⟨GoMap.made [(1, 5), (2, 6)], RWMutex.zero⟩ rfl 2 6 9 rfl

/-- C3 (as amended). LoadOrStore installs on a miss: on an initialised idle map on
which `Get(k)` finds nothing, for a key `k` that is `==` to itself,
`LoadOrStore(k, c)` returns `(c, false)`, and `Get(k)` on the resulting map returns
`(c, true)`. -/
theorem SafeMap.loadOrStore_miss_installs {K V : Type} [GoKey K] [Inhabited V]
    (s : SafeMap K V) (hinit : s.Initialised) (hidle : s.Idle) (k : K)
    (hself : GoKey.eq k k = true) (c : V)
    (habs : s.Get k = .ok ((default, false), s)) :
    ∃ s1, s.LoadOrStore k c = .ok ((c, false), s1) ∧ s1.Get k = .ok ((c, true), s1) := by
  obtain ⟨d, m⟩ := s
  obtain ⟨es, hes⟩ := hinit
  simp only [SafeMap.Idle] at hidle
  simp only at hes
  subst hidle hes
  have hidx := SafeMap.index_of_Get_idle _ k _ _ habs
  have hk := GoMap.hashable_of_index_ok _ k _ hidx
  exact ⟨_, SafeMap.LoadOrStore_miss es k default c hidx,
    SafeMap.Get_idle_ok _ k _ (GoMap.index_assign_self es k c hk hself)⟩

theorem SafeMap.loadOrStore_miss_installs_witness :
    ∃ s1, (SafeMap.mk (GoMap.made [(1, 5), (2, 6)]) RWMutex.zero : SafeMap Nat Nat).LoadOrStore
        3 9 = .ok ((9, false), s1) ∧ s1.Get 3 = .ok ((9, true), s1) :=
  SafeMap.loadOrStore_miss_installs ⟨GoMap.made [(1, 5), (2, 6)], RWMutex.zero⟩
    ⟨_, rfl⟩ rfl 3 rfl 9 (by rfl)

/-- C3 (the claim as stated fails). On a `SafeMap[float64, int]` with an empty created
map, `NaN` is absent and `LoadOrStore(NaN, 10)` returns `(10, false)`, but `Get(NaN)`
on the resulting map returns `(0, false)`, not `(10, true)`. -/
theorem SafeMap.loadOrStore_miss_nan_key :
    (SafeMap.mk (GoMap.made []) RWMutex.zero : SafeMap Float64Key Nat).Get Float64Key.nan
      = .ok ((0, false), ⟨GoMap.made [], RWMutex.zero⟩) ∧
    (SafeMap.mk (GoMap.made []) RWMutex.zero : SafeMap Float64Key Nat).LoadOrStore
        Float64Key.nan 10
      = .ok ((10, false), ⟨GoMap.made [(Float64Key.nan, 10)], RWMutex.zero⟩) ∧
    (SafeMap.mk (GoMap.made [(Float64Key.nan, 10)]) RWMutex.zero :
        SafeMap Float64Key Nat).Get Float64Key.nan
      = .ok ((0, false), ⟨GoMap.made [(Float64Key.nan, 10)], RWMutex.zero⟩) ∧
    ¬ ∃ s1, (SafeMap.mk (GoMap.made []) RWMutex.zero : SafeMap Float64Key Nat).LoadOrStore
          Float64Key.nan 10 = .ok ((10, false), s1) ∧
        s1.Get Float64Key.nan = .ok ((10, true), s1) := by
  have h1 : (SafeMap.mk (GoMap.made []) RWMutex.zero : SafeMap Float64Key Nat).LoadOrStore
      Float64Key.nan 10
      = .ok ((10, false), ⟨GoMap.made [(Float64Key.nan, 10)], RWMutex.zero⟩) := rfl
  have h2 : (SafeMap.mk (GoMap.made [(Float64Key.nan, 10)]) RWMutex.zero :
      SafeMap Float64Key Nat).Get Float64Key.nan
      = .ok ((0, false), ⟨GoMap.made [(Float64Key.nan, 10)], RWMutex.zero⟩) := rfl
  refine ⟨rfl, h1, h2, ?_⟩
  rintro ⟨s1, hp, hg⟩
  rw [h1] at hp
  injection hp with hp
  have hs : s1 = ⟨GoMap.made [(Float64Key.nan, 10)], RWMutex.zero⟩ := (Prod.mk.inj hp).2.symm
  rw [hs, h2] at hg
  injection hg with hg
  have := (Prod.mk.inj (Prod.mk.inj hg).1).2
  cases this

/-- C4 (the code at the failing input). On the zero-value `SafeMap`, `Put(key, val)`
does not return: the assignment `s.data[key] = val` panics with "assignment to
entry in nil map", and the map is left as it was. -/
theorem SafeMap.put_zero_value_panics {K V : Type} [GoKey K] (key : K) (val : V) :
    (SafeMap.zero : SafeMap K V).Put key val = .error (Fault.assignNilMap, SafeMap.zero) := by
  rw [SafeMap.zero, SafeMap.Put_idle]; rfl

end concurrent

namespace concurrent

open GoRuntime

/-! ### Sequences of calls -/

theorem GoMap.assign_ok_form {K V : Type} [GoKey K] (d d1 : GoMap K V) (k : K) (v : V)
    (h : d.assign k v = .ok d1) :
    ∃ es, d = GoMap.made es ∧ GoKey.hashable k = true ∧
      d1 = GoMap.made ((k, v) :: es.filter (fun e => !GoKey.eq e.1 k)) := by
  cases d with
  | nil => simp [GoMap.assign] at h
  | made es =>
    cases hk : GoKey.hashable k with
    | false => simp [GoMap.assign, hk] at h
    | true =>
      rw [GoMap.assign_made es k v hk] at h
      injection h with h
      exact ⟨es, rfl, rfl, h.symm⟩

theorem SafeMap.Put_state_free {K V : Type} [GoKey K] (d : GoMap K V) (r : Nat) (k : K)
    (v : V) :
    ((SafeMap.mk d ⟨false, r⟩).Put k v).state = ⟨d, ⟨false, r⟩⟩ ∨
    ∃ es, d = GoMap.made es ∧ GoKey.hashable k = true ∧
      ((SafeMap.mk d ⟨false, r⟩).Put k v).state
        = ⟨GoMap.made ((k, v) :: es.filter (fun e => !GoKey.eq e.1 k)), ⟨false, r⟩⟩ := by
  cases r with
  | succ n =>
    left
    rw [SafeMap.Put_busy d false (n + 1) (Or.inr (Nat.succ_ne_zero n))]
    rfl
  | zero =>
    have hp := SafeMap.Put_idle d k v
    rw [show RWMutex.zero = (⟨false, 0⟩ : RWMutex) from rfl] at hp
    rw [hp]
    cases ha : d.assign k v with
    | error f => left; rfl
    | ok d1 =>
      right
      obtain ⟨es, hd, hk, hd1⟩ := GoMap.assign_ok_form d d1 k v ha
      exact ⟨es, hd, hk, by rw [hd1]; rfl⟩

theorem SafeMap.LoadOrStore_state_free {K V : Type} [GoKey K] [Inhabited V] (d : GoMap K V)
    (r : Nat) (k : K) (c : V) :
    (∃ r1, ((SafeMap.mk d ⟨false, r⟩).LoadOrStore k c).state = ⟨d, ⟨false, r1⟩⟩) ∨
    ∃ es, d = GoMap.made es ∧ GoKey.hashable k = true ∧
      ((SafeMap.mk d ⟨false, r⟩).LoadOrStore k c).state
        = ⟨GoMap.made ((k, c) :: es.filter (fun e => !GoKey.eq e.1 k)), ⟨false, r⟩⟩ := by
  simp only [SafeMap.LoadOrStore, SafeMap.loadOrStoreProbe_free]
  cases hi : d.index k with
  | error f => left; exact ⟨r + 1, rfl⟩
  | ok x =>
    by_cases hx : x.2 = true
    · left
      refine ⟨r, ?_⟩
      simp [hx, Outcome.state]
    · simp only [hx, if_false]
      cases r with
      | succ n =>
        left
        refine ⟨n + 1, ?_⟩
        rw [SafeMap.loadOrStoreCommit_busy d false (n + 1) (Or.inr (Nat.succ_ne_zero n))]
        rfl
      | zero =>
        have hc := SafeMap.loadOrStoreCommit_idle d k c
        rw [show RWMutex.zero = (⟨false, 0⟩ : RWMutex) from rfl] at hc
        rw [hc, hi]
        simp only [hx, if_false]
        cases ha : d.assign k c with
        | error f => left; exact ⟨0, rfl⟩
        | ok d1 =>
          right
          obtain ⟨es, hd, hk, hd1⟩ := GoMap.assign_ok_form d d1 k c ha
          exact ⟨es, hd, hk, by rw [hd1]; rfl⟩

theorem SafeMap.apply_keeps_absent {K V : Type} [GoKey K] [Inhabited V]
    (d : GoMap K V) (r : Nat) (k : K) (op : Op K V) (hop : op.writes k = false)
    (habs : d.index k = .ok (default, false)) :
    ∃ d1 r1, (SafeMap.mk d ⟨false, r⟩).apply op = ⟨d1, ⟨false, r1⟩⟩ ∧
      d1.index k = .ok (default, false) := by
  cases op with
  | get key =>
    exact ⟨d, r, by rw [SafeMap.apply, SafeMap.Get_state], habs⟩
  | put key val =>
    have hne : GoKey.eq k key = false := GoKey.eq_false_symm key k hop
    rcases SafeMap.Put_state_free d r key val with h | ⟨es, hd, _, h⟩
    · exact ⟨d, r, by rw [SafeMap.apply, h], habs⟩
    · refine ⟨_, r, by rw [SafeMap.apply, h], ?_⟩
      rw [GoMap.index_assign_other es key k val hne, ← hd]
      exact habs
  | loadOrStore key newVal =>
    have hne : GoKey.eq k key = false := GoKey.eq_false_symm key k hop
    rcases SafeMap.LoadOrStore_state_free d r key newVal with ⟨r1, h⟩ | ⟨es, hd, _, h⟩
    · exact ⟨d, r1, by rw [SafeMap.apply, h], habs⟩
    · refine ⟨_, r, by rw [SafeMap.apply, h], ?_⟩
      rw [GoMap.index_assign_other es key k newVal hne, ← hd]
      exact habs

theorem SafeMap.run_keeps_absent {K V : Type} [GoKey K] [Inhabited V]
    (k : K) (ops : List (Op K V)) :
    ∀ (d : GoMap K V) (r : Nat), (∀ op ∈ ops, Op.writes k op = false) →
      d.index k = .ok (default, false) →
      ∃ d1 r1, (SafeMap.mk d ⟨false, r⟩).run ops = ⟨d1, ⟨false, r1⟩⟩ ∧
        d1.index k = .ok (default, false) := by
  induction ops with
  | nil => intro d r _ habs; exact ⟨d, r, rfl, habs⟩
  | cons op ops ih =>
    intro d r hops habs
    obtain ⟨d1, r1, h1, habs1⟩ :=
      SafeMap.apply_keeps_absent d r k op (hops op (List.mem_cons_self _ _)) habs
    obtain ⟨d2, r2, h2, habs2⟩ :=
      ih d1 r1 (fun o ho => hops o (List.mem_cons_of_mem _ ho)) habs1
    exact ⟨d2, r2, by rw [SafeMap.run, h1, h2], habs2⟩

/-- C5 (as amended). Absence: start from an empty map, either the zero-value `SafeMap`
(nil `data`) or one whose `data` is an empty created map, and take a key `k` that
hashes. After any finite sequence of `Put`, `Get` and `LoadOrStore` calls none of
which is a `Put` or `LoadOrStore` on a key `==` to `k` (a call that panics leaves
the map as the panic left it, a call that cannot take its lock is given up),
`Get(k)` returns the zero value of `V` with `found = false`, and it returns
rather than fails. -/
theorem SafeMap.get_absent_after_calls {K V : Type} [GoKey K] [Inhabited V]
    (s0 : SafeMap K V)
    (hempty : s0 = SafeMap.zero ∨ s0 = ⟨GoMap.made [], RWMutex.zero⟩)
    (k : K) (hhash : GoKey.hashable k = true)
    (ops : List (Op K V)) (hops : ∀ op ∈ ops, Op.writes k op = false) :
    (s0.run ops).Get k = .ok ((default, false), s0.run ops) := by
  have h0 : ∃ d : GoMap K V, s0 = ⟨d, ⟨false, 0⟩⟩ ∧ d.index k = .ok (default, false) := by
    rcases hempty with h | h
    · exact ⟨GoMap.nil, h, GoMap.index_nil k hhash⟩
    · exact ⟨GoMap.made [], h, GoMap.index_made_miss [] k hhash rfl⟩
  obtain ⟨d, hs0, habs⟩ := h0
  obtain ⟨d1, r1, hrun, habs1⟩ := SafeMap.run_keeps_absent k ops d 0 hops habs
  rw [hs0, hrun, SafeMap.Get_free, habs1]

theorem SafeMap.get_absent_after_calls_witness :
    ((SafeMap.zero : SafeMap Nat Nat).run [Op.get 1, Op.put 2 5, Op.loadOrStore 3 7]).Get 1
      = .ok ((default, false),
          (SafeMap.zero : SafeMap Nat Nat).run [Op.get 1, Op.put 2 5, Op.loadOrStore 3 7]) ∧
    ((SafeMap.mk (GoMap.made []) RWMutex.zero : SafeMap Nat Nat).run
        [Op.put 2 5, Op.get 1, Op.loadOrStore 3 7]).Get 1
      = .ok ((default, false),
          (SafeMap.mk (GoMap.made []) RWMutex.zero : SafeMap Nat Nat).run
            [Op.put 2 5, Op.get 1, Op.loadOrStore 3 7]) :=
  ⟨SafeMap.get_absent_after_calls SafeMap.zero (Or.inl rfl) 1 rfl
      [Op.get 1, Op.put 2 5, Op.loadOrStore 3 7] (by decide),
   SafeMap.get_absent_after_calls ⟨GoMap.made [], RWMutex.zero⟩ (Or.inr rfl) 1 rfl
      [Op.put 2 5, Op.get 1, Op.loadOrStore 3 7] (by decide)⟩

/-- C5 (the claim as stated fails). On the zero-value `SafeMap[any, int]`, before any
other call, `Get(k)` with `k` an interface value holding the slice `[]int{1}` does
not return `(0, false)`: hashing the key panics, nil map or not. -/
theorem SafeMap.get_unhashable_key_panics :
    ((SafeMap.zero : SafeMap AnyKey Nat).run []).Get (AnyKey.ints [1])
      = .error (Fault.unhashableKey, SafeMap.zero) ∧
    ¬ ∃ s1, ((SafeMap.zero : SafeMap AnyKey Nat).run []).Get (AnyKey.ints [1])
      = .ok ((0, false), s1) := by
  have h1 : ((SafeMap.zero : SafeMap AnyKey Nat).run []).Get (AnyKey.ints [1])
      = .error (Fault.unhashableKey, SafeMap.zero) := rfl
  refine ⟨h1, ?_⟩
  rintro ⟨s1, h⟩
  rw [h1] at h
  cases h

/-- C10 (as amended). Put is last-writer-wins: on an initialised idle map and for a key
`k` that hashes and is `==` to itself, after `Put(k, v1)` then `Put(k, v2)`,
`Get(k)` returns `(v2, true)`; and after `LoadOrStore(k, v1)` then `Put(k, v2)`,
`Get(k)` returns `(v2, true)` as well. All the calls return. -/
theorem SafeMap.put_last_writer_wins {K V : Type} [GoKey K] [Inhabited V]
    (s : SafeMap K V) (hinit : s.Initialised) (hidle : s.Idle) (k : K)
    (hhash : GoKey.hashable k = true) (hself : GoKey.eq k k = true) (v1 v2 : V) :
    (∃ s1 s2, s.Put k v1 = .ok ((), s1) ∧ s1.Put k v2 = .ok ((), s2) ∧
        s2.Get k = .ok ((v2, true), s2)) ∧
    (∃ r s1 s2, s.LoadOrStore k v1 = .ok (r, s1) ∧ s1.Put k v2 = .ok ((), s2) ∧
        s2.Get k = .ok ((v2, true), s2)) := by
  obtain ⟨d, m⟩ := s
  obtain ⟨es, hes⟩ := hinit
  simp only [SafeMap.Idle] at hidle
  simp only at hes
  subst hidle hes
  constructor
  · exact ⟨_, _, SafeMap.Put_made es k v1 hhash, SafeMap.Put_made _ k v2 hhash,
      SafeMap.Get_idle_ok _ k _ (GoMap.index_assign_self _ k v2 hhash hself)⟩
  · rcases SafeMap.LoadOrStore_made_cases es k v1 hhash with ⟨w, _, hlos⟩ | ⟨_, hlos⟩
    · exact ⟨_, _, _, hlos, SafeMap.Put_made es k v2 hhash,
        SafeMap.Get_idle_ok _ k _ (GoMap.index_assign_self _ k v2 hhash hself)⟩
    · exact ⟨_, _, _, hlos, SafeMap.Put_made _ k v2 hhash,
        SafeMap.Get_idle_ok _ k _ (GoMap.index_assign_self _ k v2 hhash hself)⟩

theorem SafeMap.put_last_writer_wins_witness :
    (∃ s1 s2, (SafeMap.mk (GoMap.made [(1, 5)]) RWMutex.zero : SafeMap Nat Nat).Put 1 8
          = .ok ((), s1) ∧ s1.Put 1 9 = .ok ((), s2) ∧
        s2.Get 1 = .ok ((9, true), s2)) ∧
    (∃ r s1 s2, (SafeMap.mk (GoMap.made [(1, 5)]) RWMutex.zero : SafeMap Nat Nat).LoadOrStore 1 8
          = .ok (r, s1) ∧ s1.Put 1 9 = .ok ((), s2) ∧
        s2.Get 1 = .ok ((9, true), s2)) :=
  SafeMap.put_last_writer_wins ⟨GoMap.made [(1, 5)], RWMutex.zero⟩ ⟨_, rfl⟩ rfl 1 rfl rfl 8 9

/-- C10 (the claim as stated fails). On a `SafeMap[float64, int]` with an empty created
map, `Put(NaN, 1)` then `Put(NaN, 2)` both return and leave two entries, and
`Get(NaN)` returns `(0, false)`, not `(2, true)`. -/
theorem SafeMap.put_twice_nan_key :
    (SafeMap.mk (GoMap.made []) RWMutex.zero : SafeMap Float64Key Nat).Put Float64Key.nan 1
      = .ok ((), ⟨GoMap.made [(Float64Key.nan, 1)], RWMutex.zero⟩) ∧
    (SafeMap.mk (GoMap.made [(Float64Key.nan, 1)]) RWMutex.zero :
        SafeMap Float64Key Nat).Put Float64Key.nan 2
      = .ok ((), ⟨GoMap.made [(Float64Key.nan, 2), (Float64Key.nan, 1)], RWMutex.zero⟩) ∧
    (SafeMap.mk (GoMap.made [(Float64Key.nan, 2), (Float64Key.nan, 1)]) RWMutex.zero :
        SafeMap Float64Key Nat).Get Float64Key.nan
      = .ok ((0, false),
          ⟨GoMap.made [(Float64Key.nan, 2), (Float64Key.nan, 1)], RWMutex.zero⟩) ∧
    ¬ ∃ s1 s2, (SafeMap.mk (GoMap.made []) RWMutex.zero : SafeMap Float64Key Nat).Put
          Float64Key.nan 1 = .ok ((), s1) ∧ s1.Put Float64Key.nan 2 = .ok ((), s2) ∧
        s2.Get Float64Key.nan = .ok ((2, true), s2) := by
  have h1 : (SafeMap.mk (GoMap.made []) RWMutex.zero : SafeMap Float64Key Nat).Put
      Float64Key.nan 1 = .ok ((), ⟨GoMap.made [(Float64Key.nan, 1)], RWMutex.zero⟩) := rfl
  have h2 : (SafeMap.mk (GoMap.made [(Float64Key.nan, 1)]) RWMutex.zero :
      SafeMap Float64Key Nat).Put Float64Key.nan 2
      = .ok ((), ⟨GoMap.made [(Float64Key.nan, 2), (Float64Key.nan, 1)], RWMutex.zero⟩) := rfl
  have h3 : (SafeMap.mk (GoMap.made [(Float64Key.nan, 2), (Float64Key.nan, 1)]) RWMutex.zero :
      SafeMap Float64Key Nat).Get Float64Key.nan
      = .ok ((0, false),
          ⟨GoMap.made [(Float64Key.nan, 2), (Float64Key.nan, 1)], RWMutex.zero⟩) := rfl
  refine ⟨h1, h2, h3, ?_⟩
  rintro ⟨s1, s2, hp1, hp2, hg⟩
  rw [h1] at hp1
  injection hp1 with hp1
  have hs1 : s1 = ⟨GoMap.made [(Float64Key.nan, 1)], RWMutex.zero⟩ := (Prod.mk.inj hp1).2.symm
  rw [hs1, h2] at hp2
  injection hp2 with hp2
  have hs2 : s2 = ⟨GoMap.made [(Float64Key.nan, 2), (Float64Key.nan, 1)], RWMutex.zero⟩ :=
    (Prod.mk.inj hp2).2.symm
  rw [hs2, h3] at hg
  injection hg with hg
  have := (Prod.mk.inj (Prod.mk.inj hg).1).2
  cases this

end concurrent

namespace concurrent

open GoRuntime

/-! ### Interleavings of `LoadOrStore` -/

theorem SafeMap.loadOrStoreProbe_idle {K V : Type} [GoKey K] [Inhabited V]
    (d : GoMap K V) (k : K) (x : V × Bool) (h : d.index k = .ok x) :
    (SafeMap.mk d RWMutex.zero).loadOrStoreProbe k = .ok (x, ⟨d, RWMutex.zero⟩) := by
  have hp := SafeMap.loadOrStoreProbe_free d 0 k
  rw [h] at hp
  exact hp

theorem Caller.step_made {K V : Type} [GoKey K] [Inhabited V] (k : K)
    (hk : GoKey.hashable k = true) (c : Caller V)
    (es : List (K × V)) (c1 : Caller V) (s1 : SafeMap K V)
    (h : c.step k ⟨GoMap.made es, RWMutex.zero⟩ = some (c1, s1)) :
    c.finished = false ∧ c1.newVal = c.newVal ∧
    ((entryLookup k es = none ∧ c1.pc = Pc.commit ∧ s1 = ⟨GoMap.made es, RWMutex.zero⟩) ∨
     (entryLookup k es = none ∧ c1.pc = Pc.returned c.newVal false ∧
        s1 = ⟨GoMap.made ((k, c.newVal) :: es.filter (fun e => !GoKey.eq e.1 k)),
              RWMutex.zero⟩) ∨
     (∃ v, entryLookup k es = some v ∧ c1.pc = Pc.returned v true ∧
        s1 = ⟨GoMap.made es, RWMutex.zero⟩)) := by
  obtain ⟨nv, pc⟩ := c
  cases pc with
  | probe =>
    cases hl : entryLookup k es with
    | none =>
      have hi := GoMap.index_made_miss (V := V) es k hk hl
      simp [Caller.step, SafeMap.loadOrStoreProbe_idle _ k _ hi] at h
      obtain ⟨h1, h2⟩ := h
      subst h1 h2
      exact ⟨rfl, rfl, Or.inl ⟨rfl, rfl, rfl⟩⟩
    | some v =>
      have hi := GoMap.index_made_hit es k v hk hl
      simp [Caller.step, SafeMap.loadOrStoreProbe_idle _ k _ hi] at h
      obtain ⟨h1, h2⟩ := h
      subst h1 h2
      exact ⟨rfl, rfl, Or.inr (Or.inr ⟨v, rfl, rfl, rfl⟩)⟩
  | commit =>
    cases hl : entryLookup k es with
    | none =>
      have hi := GoMap.index_made_miss (V := V) es k hk hl
      simp [Caller.step, SafeMap.loadOrStoreCommit_idle, hi, GoMap.assign_made es k nv hk] at h
      obtain ⟨h1, h2⟩ := h
      subst h1 h2
      exact ⟨rfl, rfl, Or.inr (Or.inl ⟨rfl, rfl, rfl⟩)⟩
    | some v =>
      have hi := GoMap.index_made_hit es k v hk hl
      simp [Caller.step, SafeMap.loadOrStoreCommit_idle, hi] at h
      obtain ⟨h1, h2⟩ := h
      subst h1 h2
      exact ⟨rfl, rfl, Or.inr (Or.inr ⟨v, rfl, rfl, rfl⟩)⟩
  | returned val loaded =>
    simp [Caller.step] at h

theorem stepAt_split {K V : Type} [GoKey K] [Inhabited V] (k : K) :
    ∀ (i : Nat) (cs : List (Caller V)) (s : SafeMap K V) (cs1 : List (Caller V))
      (s1 : SafeMap K V), stepAt k i cs s = some (cs1, s1) →
      ∃ pre c post c1, cs = pre ++ c :: post ∧ cs1 = pre ++ c1 :: post ∧
        c.step k s = some (c1, s1) ∧ pre.length = i := by
  intro i cs
  induction cs generalizing i with
  | nil => intro s cs1 s1 h; simp [stepAt] at h
  | cons c cs ih =>
    intro s cs1 s1 h
    cases i with
    | zero =>
      simp only [stepAt, Option.map_eq_some'] at h
      obtain ⟨⟨c1, s2⟩, hstep, heq⟩ := h
      simp only [Prod.mk.injEq] at heq
      obtain ⟨h1, h2⟩ := heq
      subst h1 h2
      exact ⟨[], c, cs, c1, rfl, rfl, hstep, rfl⟩
    | succ i =>
      simp only [stepAt, Option.map_eq_some'] at h
      obtain ⟨⟨cs2, s2⟩, hstep, heq⟩ := h
      simp only [Prod.mk.injEq] at heq
      obtain ⟨h1, h2⟩ := heq
      subst h1 h2
      obtain ⟨pre, c0, post, c1, hcs, hcs1, hs, hlen⟩ := ih i s cs2 s2 hstep
      exact ⟨c :: pre, c0, post, c1, by rw [hcs]; rfl, by rw [hcs1]; rfl, hs, by simp [hlen]⟩

theorem Caller.not_installed_of_not_finished {V : Type} (c : Caller V)
    (h : c.finished = false) : c.installed = false := by
  obtain ⟨nv, pc⟩ := c
  cases pc with
  | probe => rfl
  | commit => rfl
  | returned val loaded => simp [Caller.finished] at h

theorem Caller.pc_ne_returned_of_not_finished {V : Type} (c : Caller V)
    (h : c.finished = false) (val : V) (loaded : Bool) : c.pc ≠ Pc.returned val loaded := by
  intro hpc
  obtain ⟨nv, pc⟩ := c
  simp only at hpc
  subst hpc
  simp [Caller.finished] at h

theorem countP_installed_of_none_finished {V : Type} (cs : List (Caller V))
    (h : ∀ c ∈ cs, c.finished = false) : cs.countP Caller.installed = 0 := by
  rw [List.countP_eq_zero]
  intro c hc
  rw [Caller.not_installed_of_not_finished c (h c hc)]
  simp

theorem stepAt_preserves {K V : Type} [GoKey K] [Inhabited V] (k : K)
    (hk : GoKey.hashable k = true) (hself : GoKey.eq k k = true) (i : Nat)
    (cs : List (Caller V)) (es : List (K × V)) (cs1 : List (Caller V)) (s1 : SafeMap K V)
    (h : stepAt k i cs ⟨GoMap.made es, RWMutex.zero⟩ = some (cs1, s1))
    (hinv : InstallOnce k cs es) :
    ∃ es1, s1 = ⟨GoMap.made es1, RWMutex.zero⟩ ∧
      cs1.map Caller.newVal = cs.map Caller.newVal ∧ InstallOnce k cs1 es1 := by
  obtain ⟨pre, c, post, c1, hcs, hcs1, hstep, _⟩ := stepAt_split k i cs _ cs1 s1 h
  obtain ⟨hunf, hnv, hcase⟩ := Caller.step_made k hk c es c1 s1 hstep
  have hmap : cs1.map Caller.newVal = cs.map Caller.newVal := by
    rw [hcs, hcs1]; simp [hnv]
  subst hcs hcs1
  rcases hcase with ⟨hl, hpc, hs1⟩ | ⟨hl, hpc, hs1⟩ | ⟨v, hl, hpc, hs1⟩
  · refine ⟨es, hs1, hmap, ?_⟩
    simp only [InstallOnce, hl] at hinv ⊢
    intro c0 hc0
    rcases List.mem_append.mp hc0 with hp | hp
    · exact hinv c0 (List.mem_append_left _ hp)
    · rcases List.mem_cons.mp hp with hp | hp
      · subst hp
        simp [Caller.finished, hpc]
      · exact hinv c0 (List.mem_append_right _ (List.mem_cons_of_mem _ hp))
  · refine ⟨_, hs1, hmap, ?_⟩
    simp only [InstallOnce, hl] at hinv
    have hl1 : entryLookup k ((k, c.newVal) :: es.filter (fun e => !GoKey.eq e.1 k))
        = some c.newVal := by simp [entryLookup, hself]
    have hpre : ∀ c0 ∈ pre, c0.finished = false :=
      fun c0 hc0 => hinv c0 (List.mem_append_left _ hc0)
    have hpost : ∀ c0 ∈ post, c0.finished = false :=
      fun c0 hc0 => hinv c0 (List.mem_append_right _ (List.mem_cons_of_mem _ hc0))
    have hinst : c1.installed = true := by simp [Caller.installed, hpc]
    simp only [InstallOnce, hl1]
    refine ⟨?_, ?_, ?_⟩
    · rw [← hnv]
      exact List.mem_map_of_mem _ (List.mem_append_right _ (List.mem_cons_self _ _))
    · rw [List.countP_append, List.countP_cons, countP_installed_of_none_finished pre hpre,
        countP_installed_of_none_finished post hpost, hinst]
      simp
    · intro c0 hc0 val loaded hc0pc
      rcases List.mem_append.mp hc0 with hp | hp
      · exact absurd hc0pc (Caller.pc_ne_returned_of_not_finished c0 (hpre c0 hp) val loaded)
      · rcases List.mem_cons.mp hp with hp | hp
        · subst hp
          rw [hpc] at hc0pc
          injection hc0pc with h1 _
          exact h1.symm
        · exact absurd hc0pc (Caller.pc_ne_returned_of_not_finished c0 (hpost c0 hp) val loaded)
  · refine ⟨es, hs1, hmap, ?_⟩
    simp only [InstallOnce, hl] at hinv ⊢
    obtain ⟨hmem, hcount, hvals⟩ := hinv
    refine ⟨?_, ?_, ?_⟩
    · rw [hmap]; exact hmem
    · have hc : c.installed = false := Caller.not_installed_of_not_finished c hunf
      have hc1 : c1.installed = false := by simp [Caller.installed, hpc]
      rw [List.countP_append, List.countP_cons, hc] at hcount
      rw [List.countP_append, List.countP_cons, hc1]
      exact hcount
    · intro c0 hc0 val loaded hc0pc
      rcases List.mem_append.mp hc0 with hp | hp
      · exact hvals c0 (List.mem_append_left _ hp) val loaded hc0pc
      · rcases List.mem_cons.mp hp with hp | hp
        · subst hp
          rw [hpc] at hc0pc
          injection hc0pc with h1 _
          exact h1.symm
        · exact hvals c0 (List.mem_append_right _ (List.mem_cons_of_mem _ hp)) val loaded hc0pc

theorem exec_preserves {K V : Type} [GoKey K] [Inhabited V] (k : K)
    (hk : GoKey.hashable k = true) (hself : GoKey.eq k k = true) (sched : List Nat) :
    ∀ (cs : List (Caller V)) (es : List (K × V)) (cs1 : List (Caller V)) (s1 : SafeMap K V),
      exec k sched cs ⟨GoMap.made es, RWMutex.zero⟩ = some (cs1, s1) → InstallOnce k cs es →
      ∃ es1, s1 = ⟨GoMap.made es1, RWMutex.zero⟩ ∧
        cs1.map Caller.newVal = cs.map Caller.newVal ∧ InstallOnce k cs1 es1 := by
  induction sched with
  | nil =>
    intro cs es cs1 s1 h hinv
    simp only [exec, Option.some.injEq, Prod.mk.injEq] at h
    obtain ⟨h1, h2⟩ := h
    subst h1 h2
    exact ⟨es, rfl, rfl, hinv⟩
  | cons i sched ih =>
    intro cs es cs1 s1 h hinv
    simp only [exec] at h
    cases hst : stepAt k i cs ⟨GoMap.made es, RWMutex.zero⟩ with
    | none => simp [hst] at h
    | some p =>
      obtain ⟨cs2, s2⟩ := p
      simp only [hst] at h
      obtain ⟨es2, hs2, hmap2, hinv2⟩ := stepAt_preserves k hk hself i cs es cs2 s2 hst hinv
      subst hs2
      obtain ⟨es1, hs1, hmap1, hinv1⟩ := ih cs2 es2 cs1 s1 h hinv2
      exact ⟨es1, hs1, by rw [hmap1, hmap2], hinv1⟩

theorem Caller.step_some {K V : Type} [GoKey K] [Inhabited V] (k : K)
    (hk : GoKey.hashable k = true) (c : Caller V)
    (es : List (K × V)) (h : c.finished = false) :
    ∃ c1 s1, c.step k ⟨GoMap.made es, RWMutex.zero⟩ = some (c1, s1) := by
  obtain ⟨nv, pc⟩ := c
  cases pc with
  | probe =>
    cases hl : entryLookup k es with
    | none =>
      have hi := GoMap.index_made_miss (V := V) es k hk hl
      simp [Caller.step, SafeMap.loadOrStoreProbe_idle _ k _ hi]
    | some v =>
      have hi := GoMap.index_made_hit es k v hk hl
      simp [Caller.step, SafeMap.loadOrStoreProbe_idle _ k _ hi]
  | commit =>
    cases hl : entryLookup k es with
    | none =>
      have hi := GoMap.index_made_miss (V := V) es k hk hl
      simp [Caller.step, SafeMap.loadOrStoreCommit_idle, hi, GoMap.assign_made es k nv hk]
    | some v =>
      have hi := GoMap.index_made_hit es k v hk hl
      simp [Caller.step, SafeMap.loadOrStoreCommit_idle, hi]
  | returned val loaded => simp [Caller.finished] at h

theorem Caller.step_decreases {K V : Type} [GoKey K] [Inhabited V] (k : K)
    (c : Caller V) (s : SafeMap K V) (c1 : Caller V) (s1 : SafeMap K V)
    (h : c.step k s = some (c1, s1)) : c1.stepsLeft < c.stepsLeft := by
  obtain ⟨nv, pc⟩ := c
  cases pc with
  | probe =>
    simp only [Caller.step] at h
    split at h
    · split at h
      · simp only [Option.some.injEq, Prod.mk.injEq] at h
        rw [← h.1]; simp [Caller.stepsLeft]
      · simp only [Option.some.injEq, Prod.mk.injEq] at h
        rw [← h.1]; simp [Caller.stepsLeft]
    · cases h
  | commit =>
    simp only [Caller.step] at h
    split at h
    · simp only [Option.some.injEq, Prod.mk.injEq] at h
      rw [← h.1]; simp [Caller.stepsLeft]
    · cases h
  | returned val loaded => simp [Caller.step] at h

theorem stepAt_append {K V : Type} [GoKey K] [Inhabited V] (k : K)
    (pre : List (Caller V)) (c : Caller V) (post : List (Caller V)) (s : SafeMap K V) :
    stepAt k pre.length (pre ++ c :: post) s =
      (c.step k s).map (fun p => (pre ++ p.1 :: post, p.2)) := by
  induction pre with
  | nil => rfl
  | cons a pre ih =>
    have h1 : stepAt k (a :: pre).length ((a :: pre) ++ c :: post) s =
        (stepAt k pre.length (pre ++ c :: post) s).map (fun p => (a :: p.1, p.2)) := rfl
    rw [h1, ih, Option.map_map]
    rfl

theorem exec_can_finish {K V : Type} [GoKey K] [Inhabited V] (k : K)
    (hk : GoKey.hashable k = true) (n : Nat) :
    ∀ (cs : List (Caller V)) (es : List (K × V)), stepsLeft cs ≤ n →
      ∃ sched cs1 s1, exec k sched cs ⟨GoMap.made es, RWMutex.zero⟩ = some (cs1, s1) ∧
        ∀ c ∈ cs1, c.finished = true := by
  induction n with
  | zero =>
    intro cs es hn
    refine ⟨[], cs, _, rfl, ?_⟩
    intro c hc
    have hle : c.stepsLeft ≤ stepsLeft cs :=
      List.single_le_sum (fun _ _ => Nat.zero_le _) _ (List.mem_map_of_mem _ hc)
    have hz : c.stepsLeft = 0 := by omega
    obtain ⟨nv, pc⟩ := c
    cases pc <;> simp [Caller.stepsLeft] at hz
    rfl
  | succ n ih =>
    intro cs es hn
    by_cases hall : ∀ c ∈ cs, c.finished = true
    · exact ⟨[], cs, _, rfl, hall⟩
    · simp only [not_forall] at hall
      obtain ⟨c, hc, hcf⟩ := hall
      have hunf : c.finished = false := by simpa using hcf
      obtain ⟨pre, post, hsplit⟩ := List.append_of_mem hc
      obtain ⟨c1, s1, hstep⟩ := Caller.step_some k hk c es hunf
      obtain ⟨_, _, hcase⟩ := Caller.step_made k hk c es c1 s1 hstep
      have hdec := Caller.step_decreases k c _ c1 s1 hstep
      have hs1 : ∃ es1, s1 = ⟨GoMap.made es1, RWMutex.zero⟩ := by
        rcases hcase with ⟨_, _, h⟩ | ⟨_, _, h⟩ | ⟨_, _, _, h⟩ <;> exact ⟨_, h⟩
      obtain ⟨es1, hs1⟩ := hs1
      have hless : stepsLeft (pre ++ c1 :: post) ≤ n := by
        rw [hsplit] at hn
        simp only [stepsLeft, List.map_append, List.map_cons, List.sum_append,
          List.sum_cons] at hn ⊢
        omega
      obtain ⟨sched, cs2, s2, hex, hfin⟩ := ih (pre ++ c1 :: post) es1 hless
      refine ⟨pre.length :: sched, cs2, s2, ?_, hfin⟩
      rw [exec, hsplit, stepAt_append, hstep]
      simp only [Option.map_some']
      rw [hs1]
      exact hex

/-- C9 (as amended). Concurrent LoadOrStore installs exactly once. Each call
`LoadOrStore(k, vi)` is two atomic steps, the probe under the read lock and the
re-check with insert under the write lock. On an initialised idle map without `k`,
for a key `k` that is `==` to itself, for every non-empty list of candidates and
every interleaving of the callers' steps after which all calls have returned:
exactly one call has returned `loaded = false`, all calls have returned the same
value `v`, `v` is one of the candidates, and the final map holds `v` at `k`. -/
theorem loadOrStore_interleaved_installs_once {K V : Type} [GoKey K] [Inhabited V]
    (s : SafeMap K V) (hinit : s.Initialised) (hidle : s.Idle) (k : K)
    (hself : GoKey.eq k k = true)
    (habs : s.Get k = .ok ((default, false), s)) (cands : List V) (hne : cands ≠ [])
    (sched : List Nat) (cs : List (Caller V)) (s1 : SafeMap K V)
    (hexec : exec k sched (startCallers cands) s = some (cs, s1))
    (hdone : ∀ c ∈ cs, c.finished = true) :
    cs.map Caller.newVal = cands ∧
    cs.countP Caller.installed = 1 ∧
    ∃ v ∈ cands, (∀ c ∈ cs, ∃ loaded, c.pc = Pc.returned v loaded) ∧
      s1.Get k = .ok ((v, true), s1) := by
  obtain ⟨d, m⟩ := s
  obtain ⟨es, hes⟩ := hinit
  simp only [SafeMap.Idle] at hidle
  simp only at hes
  subst hidle hes
  have hidx := SafeMap.index_of_Get_idle _ k _ _ habs
  have hk := GoMap.hashable_of_index_ok _ k _ hidx
  have hl : entryLookup k es = none := (GoMap.lookup_of_index_miss es k default hidx).1
  have hinv0 : InstallOnce k (startCallers cands) es := by
    simp only [InstallOnce, hl]
    intro c hc
    simp only [startCallers, List.mem_map] at hc
    obtain ⟨v, _, hv⟩ := hc
    rw [← hv]; rfl
  obtain ⟨es1, hs1, hmap, hinv⟩ := exec_preserves k hk hself sched _ es cs s1 hexec hinv0
  have hmap0 : (startCallers cands).map Caller.newVal = cands := by
    simp [startCallers, Function.comp_def]
  rw [hmap0] at hmap
  subst hs1
  refine ⟨hmap, ?_⟩
  cases hl1 : entryLookup k es1 with
  | none =>
    exfalso
    simp only [InstallOnce, hl1] at hinv
    cases cs with
    | nil => exact hne (by simpa using hmap.symm)
    | cons c cs =>
      have h1 := hinv c (List.mem_cons_self _ _)
      have h2 := hdone c (List.mem_cons_self _ _)
      rw [h1] at h2
      cases h2
  | some v =>
    simp only [InstallOnce, hl1] at hinv
    obtain ⟨hmem, hcount, hvals⟩ := hinv
    refine ⟨hcount, v, by rw [← hmap]; exact hmem, ?_, ?_⟩
    · intro c hc
      have hf := hdone c hc
      obtain ⟨nv, pc⟩ := c
      cases pc with
      | probe => simp [Caller.finished] at hf
      | commit => simp [Caller.finished] at hf
      | returned val loaded =>
        have := hvals _ hc val loaded rfl
        subst this
        exact ⟨loaded, rfl⟩
    · exact SafeMap.Get_idle_ok _ k _ (GoMap.index_made_hit es1 k v hk hl1)

theorem loadOrStore_interleaved_installs_once_witness :
    ([⟨10, Pc.returned 20 true⟩, ⟨20, Pc.returned 20 false⟩,
        ⟨30, Pc.returned 20 true⟩] : List (Caller Nat)).map Caller.newVal = [10, 20, 30] ∧
    ([⟨10, Pc.returned 20 true⟩, ⟨20, Pc.returned 20 false⟩,
        ⟨30, Pc.returned 20 true⟩] : List (Caller Nat)).countP Caller.installed = 1 ∧
    ∃ v ∈ [10, 20, 30],
      (∀ c ∈ ([⟨10, Pc.returned 20 true⟩, ⟨20, Pc.returned 20 false⟩,
          ⟨30, Pc.returned 20 true⟩] : List (Caller Nat)), ∃ loaded, c.pc = Pc.returned v loaded) ∧
      (SafeMap.mk (GoMap.made [(1, 20), (7, 70)]) RWMutex.zero : SafeMap Nat Nat).Get 1
        = .ok ((v, true), ⟨GoMap.made [(1, 20), (7, 70)], RWMutex.zero⟩) :=
  loadOrStore_interleaved_installs_once
    (⟨GoMap.made [(7, 70)], RWMutex.zero⟩ : SafeMap Nat Nat) ⟨_, rfl⟩ rfl 1 rfl (by rfl)
    [10, 20, 30] (by decide) [0, 1, 1, 0, 2]
    [⟨10, Pc.returned 20 true⟩, ⟨20, Pc.returned 20 false⟩, ⟨30, Pc.returned 20 true⟩]
    ⟨GoMap.made [(1, 20), (7, 70)], RWMutex.zero⟩ rfl (by decide)

/-- C9 (the claim as stated fails). On a `SafeMap[float64, int]` with an empty created
map, two calls `LoadOrStore(NaN, 10)` and `LoadOrStore(NaN, 20)` run one after the
other (one of the interleavings): both miss both checks, both install and both
return `loaded = false`, with different values. -/
theorem loadOrStore_interleaved_nan_key :
    exec Float64Key.nan [0, 0, 1, 1] (startCallers [10, 20])
        (⟨GoMap.made [], RWMutex.zero⟩ : SafeMap Float64Key Nat)
      = some ([⟨10, Pc.returned 10 false⟩, ⟨20, Pc.returned 20 false⟩],
          ⟨GoMap.made [(Float64Key.nan, 20), (Float64Key.nan, 10)], RWMutex.zero⟩) ∧
    ([⟨10, Pc.returned 10 false⟩, ⟨20, Pc.returned 20 false⟩] :
        List (Caller Nat)).countP Caller.installed = 2 ∧
    (∀ c ∈ ([⟨10, Pc.returned 10 false⟩, ⟨20, Pc.returned 20 false⟩] : List (Caller Nat)),
        c.finished = true) ∧
    (SafeMap.mk (GoMap.made [(Float64Key.nan, 20), (Float64Key.nan, 10)]) RWMutex.zero :
        SafeMap Float64Key Nat).Get Float64Key.nan
      = .ok ((0, false),
          ⟨GoMap.made [(Float64Key.nan, 20), (Float64Key.nan, 10)], RWMutex.zero⟩) :=
  ⟨rfl, rfl, by decide, rfl⟩

end concurrent

namespace GoRuntime

theorem GoKey.eq_congr_right {K : Type} [GoKey K] (a b c : K) (h : GoKey.eq a b = true) :
    GoKey.eq c a = GoKey.eq c b := by
  cases hca : GoKey.eq c a with
  | true => exact (GoKey.eq_trans c a b hca h).symm
  | false =>
    cases hcb : GoKey.eq c b with
    | false => rfl
    | true =>
      have := GoKey.eq_trans c b a hcb (GoKey.eq_symm a b h)
      rw [this] at hca; cases hca

theorem entryLookup_congr {K V : Type} [GoKey K] (a b : K) (h : GoKey.eq a b = true)
    (es : List (K × V)) : entryLookup a es = entryLookup b es := by
  induction es with
  | nil => rfl
  | cons e es ih =>
    obtain ⟨k, v⟩ := e
    simp only [entryLookup, GoKey.eq_congr_right a b k h, ih]

theorem GoMap.index_ok_of_hashable {K V : Type} [GoKey K] [Inhabited V] (d : GoMap K V)
    (k : K) (h : GoKey.hashable k = true) : ∃ x, d.index k = .ok x := by
  cases d with
  | nil => exact ⟨_, GoMap.index_nil k h⟩
  | made es =>
    cases hl : entryLookup k es with
    | none => exact ⟨_, GoMap.index_made_miss es k h hl⟩
    | some v => exact ⟨_, GoMap.index_made_hit es k v h hl⟩

theorem GoMap.assign_unhashable {K V : Type} [GoKey K] (es : List (K × V)) (k : K) (v : V)
    (h : GoKey.hashable k = false) :
    (GoMap.made es).assign k v = .error Fault.unhashableKey := by
  simp [GoMap.assign, h]

end GoRuntime

namespace concurrent

open GoRuntime

/-! ### Frame properties of the map methods -/

/-- C11. Get is read-only: in every SafeMap state and for every key `k`, the state
after `Get(k)` is the state before it, the underlying map included, whether the
call returns, waits or panics; so a later `Get(k2)`, for any key `k2`, returns what
it returns without the `Get(k)`. -/
theorem SafeMap.get_read_only {K V : Type} [GoKey K] [Inhabited V] (s : SafeMap K V)
    (k k2 : K) :
    (s.Get k).state.data = s.data ∧ (s.Get k).state = s ∧
      (s.Get k).state.Get k2 = s.Get k2 := by
  rw [SafeMap.Get_state]
  exact ⟨rfl, rfl, rfl⟩

theorem SafeMap.Put_unhashable {K V : Type} [GoKey K] (es : List (K × V)) (k : K) (v : V)
    (hk : GoKey.hashable k = false) :
    (SafeMap.mk (GoMap.made es) RWMutex.zero).Put k v
      = .error (Fault.unhashableKey, ⟨GoMap.made es, RWMutex.zero⟩) := by
  rw [SafeMap.Put_idle, GoMap.assign_unhashable es k v hk]

theorem SafeMap.Get_result_free {K V : Type} [GoKey K] [Inhabited V] (d : GoMap K V)
    (r : Nat) (k : K) :
    ((SafeMap.mk d ⟨false, r⟩).Get k).result = d.index k := by
  rw [SafeMap.Get_free]
  cases d.index k <;> rfl

/-! ### Chains of `LoadOrStore` -/

theorem SafeMap.loadOrStoreAll_hit {K V : Type} [GoKey K] [Inhabited V]
    (d : GoMap K V) (k : K) (v : V) (h : d.index k = .ok (v, true)) (cs : List V) :
    (SafeMap.mk d RWMutex.zero).loadOrStoreAll k cs =
      .ok (cs.map (fun _ => (v, true)), ⟨d, RWMutex.zero⟩) := by
  induction cs with
  | nil => rfl
  | cons c cs ih =>
    simp only [SafeMap.loadOrStoreAll, SafeMap.LoadOrStore_hit d k v c h, ih, List.map_cons]

/-- C12 (as amended). Sequential LoadOrStore chain: on an initialised idle map without
`k`, for a key `k` that is `==` to itself, the calls `LoadOrStore(k, v1)`,
`LoadOrStore(k, v2)`, ..., `LoadOrStore(k, vN)` made one after another all return;
the first returns `(v1, false)`, every later one returns `(v1, true)`, and `Get(k)`
afterwards returns `(v1, true)`. -/
theorem SafeMap.loadOrStore_chain {K V : Type} [GoKey K] [Inhabited V]
    (s : SafeMap K V) (hinit : s.Initialised) (hidle : s.Idle) (k : K)
    (hself : GoKey.eq k k = true)
    (habs : s.Get k = .ok ((default, false), s)) (v1 : V) (rest : List V) :
    ∃ s1, s.loadOrStoreAll k (v1 :: rest)
        = .ok ((v1, false) :: rest.map (fun _ => (v1, true)), s1) ∧
      s1.Get k = .ok ((v1, true), s1) := by
  obtain ⟨d, m⟩ := s
  obtain ⟨es, hes⟩ := hinit
  simp only [SafeMap.Idle] at hidle
  simp only at hes
  subst hidle hes
  have hidx := SafeMap.index_of_Get_idle _ k _ _ habs
  have hk := GoMap.hashable_of_index_ok _ k _ hidx
  have hfirst := SafeMap.LoadOrStore_miss es k default v1 hidx
  have hnow := GoMap.index_assign_self es k v1 hk hself
  refine ⟨⟨GoMap.made ((k, v1) :: es.filter (fun e => !GoKey.eq e.1 k)), RWMutex.zero⟩,
    ?_, SafeMap.Get_idle_ok _ k _ hnow⟩
  simp only [SafeMap.loadOrStoreAll, hfirst, SafeMap.loadOrStoreAll_hit _ k v1 hnow rest]

theorem SafeMap.loadOrStore_chain_witness :
    ∃ s1, (SafeMap.mk (GoMap.made [(7, 70)]) RWMutex.zero : SafeMap Nat Nat).loadOrStoreAll 1
          (10 :: [20, 30])
        = .ok ((10, false) :: [20, 30].map (fun _ => (10, true)), s1) ∧
      s1.Get 1 = .ok ((10, true), s1) :=
  SafeMap.loadOrStore_chain (⟨GoMap.made [(7, 70)], RWMutex.zero⟩ : SafeMap Nat Nat)
    ⟨_, rfl⟩ rfl 1 rfl (by rfl) 10 [20, 30]

/-- C12 (the claim as stated fails). On a `SafeMap[float64, int]` with an empty created
map, from which NaN is absent, the chain `LoadOrStore(NaN, 10)`, `LoadOrStore(NaN, 20)`,
`LoadOrStore(NaN, 30)` returns `(10, false)`, `(20, false)`, `(30, false)`, not
`(10, false)`, `(10, true)`, `(10, true)`, and `Get(NaN)` afterwards returns
`(0, false)`. -/
theorem SafeMap.loadOrStore_nan_chain :
    (SafeMap.mk (GoMap.made []) RWMutex.zero : SafeMap Float64Key Nat).Get Float64Key.nan
      = .ok ((default, false), ⟨GoMap.made [], RWMutex.zero⟩) ∧
    (SafeMap.mk (GoMap.made []) RWMutex.zero : SafeMap Float64Key Nat).loadOrStoreAll
        Float64Key.nan [10, 20, 30]
      = .ok ([(10, false), (20, false), (30, false)],
          ⟨GoMap.made [(Float64Key.nan, 30), (Float64Key.nan, 20), (Float64Key.nan, 10)],
            RWMutex.zero⟩) ∧
    (SafeMap.mk (GoMap.made [(Float64Key.nan, 30), (Float64Key.nan, 20),
        (Float64Key.nan, 10)]) RWMutex.zero : SafeMap Float64Key Nat).Get Float64Key.nan
      = .ok ((0, false),
          ⟨GoMap.made [(Float64Key.nan, 30), (Float64Key.nan, 20), (Float64Key.nan, 10)],
            RWMutex.zero⟩) ∧
    ¬ ∃ s1, (SafeMap.mk (GoMap.made []) RWMutex.zero : SafeMap Float64Key Nat).loadOrStoreAll
          Float64Key.nan (10 :: [20, 30])
        = .ok ((10, false) :: [20, 30].map (fun _ => (10, true)), s1) ∧
      s1.Get Float64Key.nan = .ok ((10, true), s1) := by
  have h1 : (SafeMap.mk (GoMap.made []) RWMutex.zero : SafeMap Float64Key Nat).loadOrStoreAll
        Float64Key.nan [10, 20, 30]
      = .ok ([(10, false), (20, false), (30, false)],
          ⟨GoMap.made [(Float64Key.nan, 30), (Float64Key.nan, 20), (Float64Key.nan, 10)],
            RWMutex.zero⟩) := rfl
  refine ⟨rfl, h1, rfl, ?_⟩
  rintro ⟨s1, hc, _⟩
  rw [h1] at hc
  injection hc with hc
  have h2 := (Prod.mk.inj hc).1
  simp at h2

/-! ### The single-check variant -/

theorem SafeMap.LoadOrStoreSingleCheck_eq_commit {K V : Type} [GoKey K] [Inhabited V]
    (s : SafeMap K V) (k : K) (c : V) :
    s.LoadOrStoreSingleCheck k c = s.loadOrStoreCommit k c := by
  simp only [SafeMap.LoadOrStoreSingleCheck, SafeMap.loadOrStoreCommit]
  cases s.mutex.Lock with
  | error f => rfl
  | ok held =>
    cases s.data.index k with
    | error f => rfl
    | ok x =>
      obtain ⟨res, b⟩ := x
      cases b
      · simp only [Bool.false_eq_true, if_false]
        cases s.data.assign k c <;> rfl
      · simp

/-- C13. The optimistic first check is only an optimisation: on an initialised idle
map, for every key and candidate, the double-checked `LoadOrStore` of the source
and the single-check variant (exclusive-access lookup then insert, nothing else)
give the caller the same outcome, the same `(value, loaded)` pair or the same
panic, and leave the same underlying map; and for a key that hashes both return,
with the same `(value, loaded)` pair and the same final state. -/
theorem SafeMap.loadOrStore_refines_single_check {K V : Type} [GoKey K] [Inhabited V]
    (s : SafeMap K V) (hinit : s.Initialised) (hidle : s.Idle) (k : K) (c : V) :
    (s.LoadOrStore k c).result = (s.LoadOrStoreSingleCheck k c).result ∧
    (s.LoadOrStore k c).state.data = (s.LoadOrStoreSingleCheck k c).state.data ∧
    (GoKey.hashable k = true →
      ∃ r s1, s.LoadOrStore k c = .ok (r, s1) ∧ s.LoadOrStoreSingleCheck k c = .ok (r, s1)) := by
  obtain ⟨d, m⟩ := s
  obtain ⟨es, hes⟩ := hinit
  simp only [SafeMap.Idle] at hidle
  simp only at hes
  subst hidle hes
  rw [SafeMap.LoadOrStoreSingleCheck_eq_commit, SafeMap.loadOrStoreCommit_idle]
  cases hk : GoKey.hashable k with
  | false =>
    rw [SafeMap.LoadOrStore_unhashable _ k c hk, GoMap.index_unhashable _ k hk]
    exact ⟨rfl, rfl, fun h => by cases h⟩
  | true =>
    rcases SafeMap.LoadOrStore_made_cases es k c hk with ⟨v, hi, hlos⟩ | ⟨hi, hlos⟩
    · rw [hlos, hi]
      exact ⟨rfl, rfl, fun _ => ⟨_, _, rfl, rfl⟩⟩
    · rw [hlos, hi, GoMap.assign_made es k c hk]
      exact ⟨rfl, rfl, fun _ => ⟨_, _, rfl, rfl⟩⟩

theorem SafeMap.loadOrStore_refines_single_check_witness :
    ((SafeMap.mk (GoMap.made [(7, 70)]) RWMutex.zero : SafeMap Nat Nat).LoadOrStore 1 5).result
      = ((SafeMap.mk (GoMap.made [(7, 70)]) RWMutex.zero :
          SafeMap Nat Nat).LoadOrStoreSingleCheck 1 5).result ∧
    ((SafeMap.mk (GoMap.made [(7, 70)]) RWMutex.zero :
        SafeMap Nat Nat).LoadOrStore 1 5).state.data
      = ((SafeMap.mk (GoMap.made [(7, 70)]) RWMutex.zero :
          SafeMap Nat Nat).LoadOrStoreSingleCheck 1 5).state.data ∧
    (GoKey.hashable (1 : Nat) = true →
      ∃ r s1, (SafeMap.mk (GoMap.made [(7, 70)]) RWMutex.zero : SafeMap Nat Nat).LoadOrStore 1 5
          = .ok (r, s1) ∧
        (SafeMap.mk (GoMap.made [(7, 70)]) RWMutex.zero :
          SafeMap Nat Nat).LoadOrStoreSingleCheck 1 5 = .ok (r, s1)) :=
  SafeMap.loadOrStore_refines_single_check
    (⟨GoMap.made [(7, 70)], RWMutex.zero⟩ : SafeMap Nat Nat) ⟨_, rfl⟩ rfl 1 5

/-- On a key that does not hash the two differ in the mutex only: `LoadOrStore` panics
in its probe, whose `RUnlock` is not deferred, and leaves the read lock held; the
single-check variant releases its lock on the way out. -/
theorem SafeMap.loadOrStore_unhashable_key_keeps_read_lock :
    (SafeMap.mk (GoMap.made [(AnyKey.int 7, 70)]) RWMutex.zero :
        SafeMap AnyKey Nat).LoadOrStore (AnyKey.ints [1]) 5
      = .error (Fault.unhashableKey, ⟨GoMap.made [(AnyKey.int 7, 70)], ⟨false, 1⟩⟩) ∧
    (SafeMap.mk (GoMap.made [(AnyKey.int 7, 70)]) RWMutex.zero :
        SafeMap AnyKey Nat).LoadOrStoreSingleCheck (AnyKey.ints [1]) 5
      = .error (Fault.unhashableKey, ⟨GoMap.made [(AnyKey.int 7, 70)], RWMutex.zero⟩) :=
  ⟨rfl, rfl⟩

/-! ### What a call does to the other entries -/

/-- C14. Writes touch only their own key: on an initialised idle map, for keys `k`
and `k2` with `k2 != k` and every value `v`, `Get(k2)` gives the caller after
`Put(k, v)` and after `LoadOrStore(k, v)` what it gave before, whether that is a
present value, absence or a panic, and whether or not the write returned; and when
`k` and `k2` hash, `Put(k, v)` and `LoadOrStore(k, v)` return and `Get(k2)` returns
afterwards the very result `r` it returned before. -/
theorem SafeMap.writes_leave_other_keys {K V : Type} [GoKey K] [Inhabited V]
    (s : SafeMap K V) (hinit : s.Initialised) (hidle : s.Idle) (k k2 : K)
    (hne : GoKey.eq k2 k = false) (v : V) :
    ((s.Put k v).state.Get k2).result = (s.Get k2).result ∧
    ((s.LoadOrStore k v).state.Get k2).result = (s.Get k2).result ∧
    (GoKey.hashable k = true → GoKey.hashable k2 = true →
      ∃ r, s.Get k2 = .ok (r, s) ∧
        (∃ s1, s.Put k v = .ok ((), s1) ∧ s1.Get k2 = .ok (r, s1)) ∧
        (∃ r2 s2, s.LoadOrStore k v = .ok (r2, s2) ∧ s2.Get k2 = .ok (r, s2))) := by
  obtain ⟨d, m⟩ := s
  obtain ⟨es, hes⟩ := hinit
  simp only [SafeMap.Idle] at hidle
  simp only at hes
  subst hidle hes
  have hother := GoMap.index_assign_other es k k2 v hne
  have hbefore : ((SafeMap.mk (GoMap.made es) RWMutex.zero).Get k2).result
      = (GoMap.made es).index k2 := SafeMap.Get_result_free _ 0 k2
  cases hk : GoKey.hashable k with
  | false =>
    rw [SafeMap.Put_unhashable es k v hk, SafeMap.LoadOrStore_unhashable _ k v hk]
    refine ⟨rfl, ?_, fun h => by cases h⟩
    rw [hbefore]
    exact SafeMap.Get_result_free _ 1 k2
  | true =>
    have hput := SafeMap.Put_made es k v hk
    have hafter : ((SafeMap.mk (GoMap.made ((k, v) :: es.filter (fun e => !GoKey.eq e.1 k)))
        RWMutex.zero).Get k2).result = (GoMap.made es).index k2 := by
      rw [← hother]
      exact SafeMap.Get_result_free _ 0 k2
    refine ⟨?_, ?_, ?_⟩
    · rw [hput, Outcome.state_ok, hbefore, hafter]
    · rcases SafeMap.LoadOrStore_made_cases es k v hk with ⟨v0, _, hlos⟩ | ⟨_, hlos⟩
      · rw [hlos, Outcome.state_ok]
      · rw [hlos, Outcome.state_ok, hbefore, hafter]
    · intro _ hk2
      obtain ⟨r, hr⟩ := GoMap.index_ok_of_hashable (GoMap.made es) k2 hk2
      refine ⟨r, SafeMap.Get_idle_ok _ k2 r hr, ⟨_, hput, ?_⟩, ?_⟩
      · exact SafeMap.Get_idle_ok _ k2 r (by rw [hother, hr])
      · rcases SafeMap.LoadOrStore_made_cases es k v hk with ⟨v0, _, hlos⟩ | ⟨_, hlos⟩
        · exact ⟨_, _, hlos, SafeMap.Get_idle_ok _ k2 r hr⟩
        · exact ⟨_, _, hlos, SafeMap.Get_idle_ok _ k2 r (by rw [hother, hr])⟩

theorem SafeMap.writes_leave_other_keys_witness :
    (((SafeMap.mk (GoMap.made [(7, 70)]) RWMutex.zero : SafeMap Nat Nat).Put 1 5).state.Get
        7).result
      = ((SafeMap.mk (GoMap.made [(7, 70)]) RWMutex.zero : SafeMap Nat Nat).Get 7).result ∧
    (((SafeMap.mk (GoMap.made [(7, 70)]) RWMutex.zero : SafeMap Nat Nat).LoadOrStore
        1 5).state.Get 7).result
      = ((SafeMap.mk (GoMap.made [(7, 70)]) RWMutex.zero : SafeMap Nat Nat).Get 7).result ∧
    (GoKey.hashable (1 : Nat) = true → GoKey.hashable (7 : Nat) = true →
      ∃ r, (SafeMap.mk (GoMap.made [(7, 70)]) RWMutex.zero : SafeMap Nat Nat).Get 7
          = .ok (r, ⟨GoMap.made [(7, 70)], RWMutex.zero⟩) ∧
        (∃ s1, (SafeMap.mk (GoMap.made [(7, 70)]) RWMutex.zero : SafeMap Nat Nat).Put 1 5
            = .ok ((), s1) ∧ s1.Get 7 = .ok (r, s1)) ∧
        (∃ r2 s2, (SafeMap.mk (GoMap.made [(7, 70)]) RWMutex.zero :
            SafeMap Nat Nat).LoadOrStore 1 5 = .ok (r2, s2) ∧ s2.Get 7 = .ok (r, s2))) :=
  SafeMap.writes_leave_other_keys (⟨GoMap.made [(7, 70)], RWMutex.zero⟩ : SafeMap Nat Nat)
    ⟨_, rfl⟩ rfl 1 7 (by decide) 5

/-- C15. Keys are never removed and LoadOrStore never overwrites: on an idle map on
which `Get(k0)` returns `(v0, true)`, after each of `Put`, `Get` and `LoadOrStore`,
with any arguments and whether or not the call returned, `Get(k0)` returns a value
with `found = true`; after a `Get` or a `LoadOrStore` that value is still `v0`, and
after a `Put` it is `v0` unless the `Put` was on a key `==` to `k0`. When the key of
the call hashes, the call returns as well. -/
theorem SafeMap.keys_stay_present {K V : Type} [GoKey K] [Inhabited V]
    (s : SafeMap K V) (hidle : s.Idle) (k0 : K) (v0 : V)
    (hget : s.Get k0 = .ok ((v0, true), s)) (k : K) (v : V) :
    (∃ v1, (s.Put k v).state.Get k0 = .ok ((v1, true), (s.Put k v).state) ∧
        (GoKey.eq k k0 = false → v1 = v0)) ∧
    (s.Get k).state.Get k0 = .ok ((v0, true), (s.Get k).state) ∧
    (s.LoadOrStore k v).state.Get k0 = .ok ((v0, true), (s.LoadOrStore k v).state) ∧
    (GoKey.hashable k = true →
      (∃ s1 v1, s.Put k v = .ok ((), s1) ∧ s1.Get k0 = .ok ((v1, true), s1) ∧
          (GoKey.eq k k0 = false → v1 = v0)) ∧
      (∃ r s1, s.Get k = .ok (r, s1) ∧ s1.Get k0 = .ok ((v0, true), s1)) ∧
      (∃ r s1, s.LoadOrStore k v = .ok (r, s1) ∧ s1.Get k0 = .ok ((v0, true), s1))) := by
  obtain ⟨d, m⟩ := s
  simp only [SafeMap.Idle] at hidle
  subst hidle
  have hidx := SafeMap.index_of_Get_idle d k0 _ _ hget
  have hk0 := GoMap.hashable_of_index_ok d k0 _ hidx
  obtain ⟨es, hd, hl0⟩ := GoMap.lookup_of_index_hit d k0 v0 hidx
  subst hd
  have hputs : ∀ s1, (SafeMap.mk (GoMap.made es) RWMutex.zero).Put k v = .ok ((), s1) →
      ∃ v1, s1.Get k0 = .ok ((v1, true), s1) ∧ (GoKey.eq k k0 = false → v1 = v0) := by
    intro s1 hp
    have hk : GoKey.hashable k = true := by
      cases hk : GoKey.hashable k with
      | true => rfl
      | false => rw [SafeMap.Put_unhashable es k v hk] at hp; cases hp
    rw [SafeMap.Put_made es k v hk] at hp
    injection hp with hp
    rw [← (Prod.mk.inj hp).2]
    cases heq : GoKey.eq k k0 with
    | true =>
      refine ⟨v, SafeMap.Get_idle_ok _ k0 _ ?_, fun h => by cases h⟩
      simp [GoMap.index, entryLookup, hk0, heq]
    | false =>
      refine ⟨v0, SafeMap.Get_idle_ok _ k0 _ ?_, fun _ => rfl⟩
      rw [GoMap.index_assign_other es k k0 v (GoKey.eq_false_symm k k0 heq), hidx]
  have hloads : ∀ r s1, (SafeMap.mk (GoMap.made es) RWMutex.zero).LoadOrStore k v
      = .ok (r, s1) → s1.Get k0 = .ok ((v0, true), s1) := by
    intro r s1 hlo
    have hk : GoKey.hashable k = true := by
      cases hk : GoKey.hashable k with
      | true => rfl
      | false => rw [SafeMap.LoadOrStore_unhashable _ k v hk] at hlo; cases hlo
    rcases SafeMap.LoadOrStore_made_cases es k v hk with ⟨w, _, hlos⟩ | ⟨hmiss, hlos⟩
    · rw [hlos] at hlo
      injection hlo with hlo
      rw [← (Prod.mk.inj hlo).2]
      exact hget
    · rw [hlos] at hlo
      injection hlo with hlo
      rw [← (Prod.mk.inj hlo).2]
      have hne : GoKey.eq k0 k = false := by
        cases heq : GoKey.eq k0 k with
        | false => rfl
        | true =>
          have h1 := (GoMap.lookup_of_index_miss es k default hmiss).1
          rw [← entryLookup_congr k0 k heq es, hl0] at h1
          cases h1
      exact SafeMap.Get_idle_ok _ k0 _
        (by rw [GoMap.index_assign_other es k k0 v hne, hidx])
  cases hk : GoKey.hashable k with
  | false =>
    rw [SafeMap.Put_unhashable es k v hk, SafeMap.LoadOrStore_unhashable _ k v hk,
      SafeMap.Get_state]
    refine ⟨⟨v0, hget, fun _ => rfl⟩, hget, ?_, fun h => by cases h⟩
    show (SafeMap.mk (GoMap.made es) ⟨false, 1⟩).Get k0 = _
    rw [SafeMap.Get_free, hidx]
    rfl
  | true =>
    have hput := SafeMap.Put_made es k v hk
    obtain ⟨v1, hv1, hv1eq⟩ := hputs _ hput
    obtain ⟨x, hx⟩ := GoMap.index_ok_of_hashable (GoMap.made es) k hk
    have hlo : ∃ r s1, (SafeMap.mk (GoMap.made es) RWMutex.zero).LoadOrStore k v
        = .ok (r, s1) := by
      rcases SafeMap.LoadOrStore_made_cases es k v hk with ⟨w, _, hlos⟩ | ⟨_, hlos⟩
      · exact ⟨_, _, hlos⟩
      · exact ⟨_, _, hlos⟩
    obtain ⟨r, s1, hlos⟩ := hlo
    have hafter := hloads r s1 hlos
    rw [SafeMap.Get_state]
    refine ⟨?_, hget, ?_, fun _ => ⟨⟨_, v1, hput, hv1, hv1eq⟩, ?_, ⟨r, s1, hlos, hafter⟩⟩⟩
    · rw [hput, Outcome.state_ok]
      exact ⟨v1, hv1, hv1eq⟩
    · rw [hlos, Outcome.state_ok]
      exact hafter
    · exact ⟨_, _, SafeMap.Get_idle_ok _ k x hx, hget⟩

theorem SafeMap.keys_stay_present_witness :
    (∃ v1, ((SafeMap.mk (GoMap.made [(7, 70)]) RWMutex.zero : SafeMap Nat Nat).Put
          7 5).state.Get 7
        = .ok ((v1, true),
            ((SafeMap.mk (GoMap.made [(7, 70)]) RWMutex.zero : SafeMap Nat Nat).Put 7 5).state) ∧
        (GoKey.eq (7 : Nat) 7 = false → v1 = 70)) ∧
    ((SafeMap.mk (GoMap.made [(7, 70)]) RWMutex.zero : SafeMap Nat Nat).Get 7).state.Get 7
      = .ok ((70, true),
          ((SafeMap.mk (GoMap.made [(7, 70)]) RWMutex.zero : SafeMap Nat Nat).Get 7).state) ∧
    ((SafeMap.mk (GoMap.made [(7, 70)]) RWMutex.zero : SafeMap Nat Nat).LoadOrStore
        7 5).state.Get 7
      = .ok ((70, true),
          ((SafeMap.mk (GoMap.made [(7, 70)]) RWMutex.zero : SafeMap Nat Nat).LoadOrStore
            7 5).state) ∧
    (GoKey.hashable (7 : Nat) = true →
      (∃ s1 v1, (SafeMap.mk (GoMap.made [(7, 70)]) RWMutex.zero : SafeMap Nat Nat).Put 7 5
            = .ok ((), s1) ∧ s1.Get 7 = .ok ((v1, true), s1) ∧
          (GoKey.eq (7 : Nat) 7 = false → v1 = 70)) ∧
      (∃ r s1, (SafeMap.mk (GoMap.made [(7, 70)]) RWMutex.zero : SafeMap Nat Nat).Get 7
            = .ok (r, s1) ∧ s1.Get 7 = .ok ((70, true), s1)) ∧
      (∃ r s1, (SafeMap.mk (GoMap.made [(7, 70)]) RWMutex.zero : SafeMap Nat Nat).LoadOrStore
            7 5 = .ok (r, s1) ∧ s1.Get 7 = .ok ((70, true), s1))) :=
  SafeMap.keys_stay_present (⟨GoMap.made [(7, 70)], RWMutex.zero⟩ : SafeMap Nat Nat)
    rfl 7 70 (by rfl) 7 5

end concurrent

namespace asynccache

open GoRuntime

/-! ### The atomic cell -/

theorem AtomicValue.store_nil_panics {E : Type} (a : AtomicValue E) :
    a.Store Iface.nil = .error Fault.storeNil := rfl

theorem AtomicValue.store_other_type_panics {E : Type} (prev : GoError E) (t : Nat) :
    (AtomicValue.mk (Iface.errorHolder prev)).Store (Iface.other t)
      = .error Fault.storeInconsistent := rfl

theorem Error.Store_holding {E : Type} (e : Error E) (h : e.Holding) (err : GoError E) :
    e.Store err = .ok ((), ⟨⟨Iface.errorHolder err⟩⟩) := by
  obtain ⟨⟨x⟩⟩ := e
  rcases h with h | ⟨prev, h⟩
  · simp only at h
    subst h
    rfl
  · simp only at h
    subst h
    rfl

theorem Error.Load_holder {E : Type} (err : GoError E) :
    (Error.mk (AtomicValue.mk (Iface.errorHolder err))).Load
      = .ok (err, ⟨⟨Iface.errorHolder err⟩⟩) := rfl

theorem Error.holding_holder {E : Type} (err : GoError E) :
    (Error.mk (AtomicValue.mk (Iface.errorHolder err))).Holding :=
  Or.inr ⟨err, rfl⟩

theorem Error.apply_holding {E : Type} (e : Error E) (h : e.Holding) (c : Call E) :
    (e.apply c).Holding := by
  cases c with
  | store err =>
    rw [Error.apply, Error.Store_holding e h err]
    exact Error.holding_holder err
  | load =>
    obtain ⟨⟨x⟩⟩ := e
    rcases h with h | ⟨prev, h⟩
    · simp only at h
      subst h
      exact Or.inl rfl
    · simp only at h
      subst h
      exact Or.inr ⟨prev, rfl⟩

theorem Error.run_holding {E : Type} (cs : List (Call E)) :
    ∀ e : Error E, e.Holding → (e.run cs).Holding := by
  induction cs with
  | nil => intro e h; exact h
  | cons c cs ih => intro e h; exact ih _ (Error.apply_holding e h c)

/-- C6. AtomicHolder round trip: on a holder that is fresh or holds a previously
stored value, `Store(e)` returns and the following `Load()` returns `e`, for every
error value `e`, nil included; in particular after `Store(e1)` with `e1` non-nil and
then `Store(nil)`, `Load()` returns nil and not `e1`. -/
theorem Error.store_load_round_trip {E : Type} (h0 : Error E) (hh : h0.Holding)
    (e : GoError E) (e1 : E) :
    (∃ h1, h0.Store e = .ok ((), h1) ∧ h1.Load = .ok (e, h1)) ∧
    (∃ h1 h2, h0.Store (some e1) = .ok ((), h1) ∧ h1.Store none = .ok ((), h2) ∧
        h2.Load = .ok (none, h2)) := by
  constructor
  · exact ⟨_, Error.Store_holding h0 hh e, Error.Load_holder e⟩
  · exact ⟨_, _, Error.Store_holding h0 hh (some e1),
      Error.Store_holding _ (Error.holding_holder (some e1)) none, Error.Load_holder none⟩

theorem Error.store_load_round_trip_witness :
    (∃ h1, (Error.mk (AtomicValue.mk (Iface.errorHolder (some 3))) : Error Nat).Store none
        = .ok ((), h1) ∧ h1.Load = .ok (none, h1)) ∧
    (∃ h1 h2, (Error.mk (AtomicValue.mk (Iface.errorHolder (some 3))) : Error Nat).Store (some 4)
        = .ok ((), h1) ∧ h1.Store none = .ok ((), h2) ∧ h2.Load = .ok (none, h2)) :=
  Error.store_load_round_trip ⟨⟨Iface.errorHolder (some 3)⟩⟩ (Or.inr ⟨some 3, rfl⟩) none 4

/-- C7. AtomicHolder initial state: on the zero-value `Error` holder, on which `Store`
was never called, `Load()` returns nil and leaves the holder as it was. -/
theorem Error.load_fresh {E : Type} :
    (Error.zero : Error E).Load = .ok (none, Error.zero) := rfl

/-- C8. Store never fails: in every holder state reached from the zero value through
any sequence of `Store` and `Load` calls, `Store(err)` returns for every `err`, nil
included; the value handed to the atomic cell is the non-nil `errorHolder{err}`,
of the one type the cell ever holds, and it is what the cell holds afterwards. -/
theorem Error.store_never_fails {E : Type} (cs : List (Call E)) (err : GoError E) :
    ∃ h1, ((Error.zero : Error E).run cs).Store err = .ok ((), h1) ∧
      h1.v.val = Iface.errorHolder err ∧ Iface.errorHolder err ≠ Iface.nil ∧
      ((Error.zero : Error E).run cs).v.Store (Iface.errorHolder err) = .ok h1.v := by
  have hh : ((Error.zero : Error E).run cs).Holding :=
    Error.run_holding cs Error.zero (Or.inl rfl)
  refine ⟨⟨⟨Iface.errorHolder err⟩⟩, Error.Store_holding _ hh err, rfl, ?_, ?_⟩
  · intro h; cases h
  · have hs := Error.Store_holding _ hh err
    unfold Error.Store at hs
    split at hs
    · rename_i a ha
      injection hs with hs
      have : a = ⟨Iface.errorHolder err⟩ := by
        have := (Prod.mk.inj hs).2
        injection this
      rw [ha, this]
    · cases hs

end asynccache

namespace asynccache

open GoRuntime

/-! ### Load never fails -/

theorem Error.load_other_type_panics {E : Type} (t : Nat) :
    (Error.mk (AtomicValue.mk (Iface.other t)) : Error E).Load
      = .error (Fault.typeAssertion, ⟨⟨Iface.other t⟩⟩) := rfl

theorem Error.Load_holding {E : Type} (e : Error E) (h : e.Holding) :
    ∃ r, e.Load = .ok (r, e) := by
  obtain ⟨⟨x⟩⟩ := e
  rcases h with h | ⟨prev, h⟩
  · simp only at h
    subst h
    exact ⟨none, rfl⟩
  · simp only at h
    subst h
    exact ⟨prev, rfl⟩

/-- C16. Load's unwrap never fails: in every holder state reached from the zero
value through any sequence of `Store` and `Load` calls, the atomic cell is empty or
holds an `errorHolder`, so `Load()` returns, without a failed type assertion, and
leaves the holder as it was; a second `Load()` right after returns the same value. -/
theorem Error.load_never_fails {E : Type} (cs : List (Call E)) :
    ((Error.zero : Error E).run cs).Holding ∧
    ∃ r, ((Error.zero : Error E).run cs).Load = .ok (r, (Error.zero : Error E).run cs) ∧
      ((Error.zero : Error E).run cs).Load.state = (Error.zero : Error E).run cs ∧
      ((Error.zero : Error E).run cs).Load.state.Load
        = .ok (r, (Error.zero : Error E).run cs) := by
  have hh : ((Error.zero : Error E).run cs).Holding :=
    Error.run_holding cs Error.zero (Or.inl rfl)
  obtain ⟨r, hr⟩ := Error.Load_holding _ hh
  refine ⟨hh, r, hr, ?_, ?_⟩
  · rw [hr]; rfl
  · rw [hr]; exact hr

end asynccache
